import Mathlib

/-!
Shallow embedding of the sudoku solver (sudoku.py, playbook.py,
strategy/singleton.py, strategy/trial.py, strategy/chain.py,
strategy/aic.py) and proofs about the specified properties.

Python exceptions are modelled by the `Err` type in an `Except` monad:
`ValueException` as `valueErr`, `LogicException` as `logicErr`, Python's
built-in `TypeError` as `typeErr`.  `fuelErr` models stack exhaustion of
the modelled recursion; it is unreachable for adequate fuel and never
corresponds to a source behaviour.
-/

inductive Err where
  | valueErr : Err
  | logicErr : Err
  | typeErr : Err
  | fuelErr : Err
deriving DecidableEq, Repr

/-- `Node` from sudoku.py: a cell with a value (0 means unresolved), the
preset flag, and an optional candidate ("hints") set.  The row/col/box
back-references of the Python object are positional in this embedding. -/
structure Node where
  value : ℕ
  preset : Bool
  hints : Option (Finset ℕ)
deriving DecidableEq

instance : Inhabited Node := ⟨⟨0, false, none⟩⟩

/-- `Node.check_value`: raises `ValueException` when the value is out of
0..9, or is 0 while `zero` is not allowed.  (Negative values cannot arise
for `ℕ`.) -/
def Node.check_value (value : ℕ) (zero : Bool) : Except Err Unit :=
  if value > 9 then .error .valueErr
  else if !zero && value == 0 then .error .valueErr
  else .ok ()

/-- `Node.__init__`: validates the value, sets `preset` iff the value is
positive, and starts with no hints. -/
def Node.make (value : ℕ) : Except Err Node := do
  Node.check_value value true
  .ok ⟨value, decide (0 < value), none⟩

def Node.is_complete (n : Node) : Bool := n.value != 0

def Node.has_hints (n : Node) : Bool := n.hints.isSome

/-- `Node.get_hints` returns a copy of the hints, or `None`. -/
def Node.get_hints (n : Node) : Option (Finset ℕ) := n.hints

def Node.has_hint (n : Node) (h : ℕ) : Bool :=
  match n.hints with
  | some s => decide (h ∈ s)
  | none => false

/-- `Node.set_value`: validates 1..9, stores the value and resets hints. -/
def Node.set_value (n : Node) (value : ℕ) : Except Err Node := do
  Node.check_value value false
  .ok ⟨value, n.preset, none⟩

/-- `Node.set_hints`: intersect the incoming set with the current hints
when present; report whether the stored hints changed. -/
def Node.set_hints (n : Node) (hints : Finset ℕ) : Node × Bool :=
  match n.hints with
  | some h =>
    let copy := hints ∩ h
    if copy = h then (n, false) else ({ n with hints := some copy }, true)
  | none => ({ n with hints := some hints }, true)

/-- `Node.update` (sudoku.py:136-156): intersect with the current hints,
raise `LogicException` when the result is empty, store it when more than
one hint remains, and resolve the node when exactly one remains. -/
def Node.update (n : Node) (hints : Finset ℕ) : Except Err (Node × Bool) :=
  let hints := match n.hints with
    | some h => hints ∩ h
    | none => hints
  if h0 : hints = ∅ then .error .logicErr
  else if 1 < hints.card then .ok (n.set_hints hints)
  else do
    let n' ← n.set_value (hints.min' (Finset.nonempty_iff_ne_empty.mpr h0))
    .ok (n', true)

/-! ## Lot (constraint-group) methods, over the lot's list of nodes. -/

namespace Lot

/-- `Lot.get_values`: the *set* of values of the complete nodes. -/
def get_values (ns : List Node) : Finset ℕ :=
  ((ns.filter (·.is_complete)).map (·.value)).toFinset

def get_missing_values (ns : List Node) : Finset ℕ :=
  Finset.Icc 1 9 \ get_values ns

/-- `Lot.validate` (sudoku.py:211-214): `values = self.get_values()` is
already a set, so the source's `len(values) > len(set(values))` compares
the cardinality of that set with itself. -/
def validate (ns : List Node) : Except Err Unit :=
  let values := get_values ns
  if values.card > values.card then .error .logicErr else .ok ()

end Lot

/-! ## The board. -/

abbrev Pos := ℕ × ℕ

abbrev Sudoku := List (List Node)

/-- All 81 cell positions in row-major order, the order in which the
source iterates `self.nodes`. -/
def allCells : List Pos :=
  (List.range 9).flatMap (fun i => (List.range 9).map (fun j => (i, j)))

def Sudoku.get_node (s : Sudoku) (i j : ℕ) : Node :=
  (s.getD i []).getD j default

def Sudoku.put (s : Sudoku) (p : Pos) (n : Node) : Sudoku :=
  s.set p.1 ((s.getD p.1 []).set p.2 n)

/-- Box identifier of a cell, matching `Box.__init__`: box `k` holds rows
`(k/3)*3 ..` and cols `(k%3)*3 ..`. -/
def boxOf (i j : ℕ) : ℕ := i / 3 * 3 + j / 3

def Sudoku.rowNodes (s : Sudoku) (i : ℕ) : List Node :=
  (List.range 9).map (fun j => s.get_node i j)

def Sudoku.colNodes (s : Sudoku) (j : ℕ) : List Node :=
  (List.range 9).map (fun i => s.get_node i j)

def Sudoku.boxNodes (s : Sudoku) (k : ℕ) : List Node :=
  (List.range 9).map (fun t => s.get_node (k / 3 * 3 + t / 3) (k % 3 * 3 + t % 3))

/-- The node lists of the row, col and box lots containing a cell
(`Node.get_lots`). -/
def Sudoku.nodeLots (s : Sudoku) (p : Pos) : List (List Node) :=
  [s.rowNodes p.1, s.colNodes p.2, s.boxNodes (boxOf p.1 p.2)]

/-- `Sudoku.setup` validates every row, col and box lot on construction
(each `Lot.__init__` ends in `self.validate()`); `Sudoku.validate` runs
the same check over `self.lots`. -/
def Sudoku.validateAll (s : Sudoku) : Except Err Unit := do
  (List.range 9).forM (fun i => Lot.validate (s.rowNodes i))
  (List.range 9).forM (fun j => Lot.validate (s.colNodes j))
  (List.range 9).forM (fun k => Lot.validate (s.boxNodes k))

/-- `Sudoku.__init__` = store the grid and run `setup` (which validates
all 27 lots). -/
def Sudoku.make (nodes : Sudoku) : Except Err Sudoku := do
  Sudoku.validateAll nodes
  .ok nodes

/-- `Sudoku.snap` (sudoku.py:357-362): a fresh grid of
`Node(node.get_value())` — values only, hints are not copied — wrapped
in a new `Sudoku`. -/
def Sudoku.snap (s : Sudoku) : Except Err Sudoku := do
  let grid ← s.mapM (fun row => row.mapM (fun n => Node.make n.value))
  Sudoku.make grid

/-- `Sudoku.get_incomplete`: incomplete cells in row-major order
(positions stand in for the node objects). -/
def Sudoku.incomplete (s : Sudoku) : List Pos :=
  allCells.filter (fun p => !(s.get_node p.1 p.2).is_complete)

def Sudoku.is_complete (s : Sudoku) : Bool := s.incomplete.isEmpty

/-- `Node.is_related`: two cells share a row, col or box. -/
def relatedB (p q : Pos) : Bool :=
  p.1 == q.1 || p.2 == q.2 || boxOf p.1 p.2 == boxOf q.1 q.2

/-- `Node.find_related`: all cells of the node's row, col and box
(the node itself included, as in the source's set union). -/
def find_related (p : Pos) : List Pos :=
  allCells.filter (fun q => relatedB p q)

/-- Python's `sorted(...)` on a hint set: the ascending list of its
elements.  (Defined by insertion sort through the quotient so that it
evaluates inside the kernel.) -/
def py_sorted (h : Finset ℕ) : List ℕ :=
  Quotient.liftOn h.val (fun l => l.insertionSort (· ≤ ·))
    (fun l1 l2 hp => List.eq_of_perm_of_sorted
      ((List.perm_insertionSort _ l1).trans (hp.trans (List.perm_insertionSort _ l2).symm))
      (List.sorted_insertionSort _ l1) (List.sorted_insertionSort _ l2))

/-! ## The save/load text encoding (sudoku.py:378-415).

`Sudoku.load` scans its input with
`re.findall("\d|\[[1-9](?:\s*,\s*[1-9]){1,8}\]", text)`.  The scan below
implements exactly that regular expression: left-to-right, at each
position first the single-digit alternative, then the bracketed list (a
first digit 1-9, then greedily 1..8 repetitions of `\s*,\s*[1-9]`,
backtracking until a closing bracket matches); positions that match
neither are skipped. -/

inductive Item where
  | digit : ℕ → Item
  | hintList : List ℕ → Item
deriving DecidableEq

instance : Inhabited Item := ⟨Item.digit 0⟩

def isDigitCh (c : Char) : Bool := '0' ≤ c && c ≤ '9'

def isHintDigit (c : Char) : Bool := '1' ≤ c && c ≤ '9'

/-- Python's `\s`: space, tab, newline, carriage return, vertical tab,
form feed. -/
def isSpaceCh (c : Char) : Bool :=
  c == ' ' || c == '\t' || c == '\n' || c == '\r' || c == '\x0b' || c == '\x0c'

def digitVal (c : Char) : ℕ := c.toNat - 48

/-- One repetition of `\s*,\s*[1-9]`. -/
def matchOneRep (cs : List Char) : Option (ℕ × List Char) :=
  match cs.dropWhile isSpaceCh with
  | c0 :: cs1 =>
    if c0 = ',' then
      match cs1.dropWhile isSpaceCh with
      | c :: cs2 => if isHintDigit c then some (digitVal c, cs2) else none
      | [] => none
    else none
  | [] => none

/-- The closing `]` of the bracketed alternative. -/
def closeBracket (acc : List ℕ) (cs : List Char) : Option (List ℕ × List Char) :=
  match cs with
  | c :: rest => if c = ']' then some (acc, rest) else none
  | [] => none

/-- Greedy matching of up to `n` further repetitions followed by `]`,
with backtracking: prefer one more repetition, else close here. -/
def matchReps (acc : List ℕ) (n : ℕ) (cs : List Char) : Option (List ℕ × List Char) :=
  match n with
  | 0 => closeBracket acc cs
  | n + 1 =>
    match matchOneRep cs with
    | some (d, cs') =>
      match matchReps (acc ++ [d]) n cs' with
      | some r => some r
      | none => closeBracket acc cs
    | none => closeBracket acc cs

/-- The bracketed alternative, applied to the text after `[`: a digit
1-9, one mandatory repetition, then up to 7 more. -/
def matchBracket (cs : List Char) : Option (List ℕ × List Char) :=
  match cs with
  | c :: cs1 =>
    if isHintDigit c then
      match matchOneRep cs1 with
      | some (d1, cs2) => matchReps [digitVal c, d1] 7 cs2
      | none => none
    else none
  | [] => none

theorem dropWhileCh_length_le (p : Char → Bool) (l : List Char) :
    (l.dropWhile p).length ≤ l.length := by
  induction l with
  | nil => simp
  | cons a tl ih =>
    rw [List.dropWhile_cons]
    split
    · simp
      omega
    · simp

theorem matchOneRep_length {cs : List Char} {d : ℕ} {cs' : List Char}
    (h : matchOneRep cs = some (d, cs')) : cs'.length < cs.length := by
  unfold matchOneRep at h
  rcases h1 : cs.dropWhile isSpaceCh with _ | ⟨c1, cs1⟩ <;> rw [h1] at h <;>
    dsimp only at h
  · simp at h
  · have l1 : cs1.length < cs.length := by
      have := dropWhileCh_length_le isSpaceCh cs
      rw [h1] at this
      simp at this
      omega
    by_cases hcomma : c1 = ','
    · rw [if_pos hcomma] at h
      rcases h2 : cs1.dropWhile isSpaceCh with _ | ⟨c2, cs2⟩ <;> rw [h2] at h <;>
        dsimp only at h
      · simp at h
      · have l2 : cs2.length < cs1.length := by
          have := dropWhileCh_length_le isSpaceCh cs1
          rw [h2] at this
          simp at this
          omega
        by_cases hd : isHintDigit c2
        · rw [if_pos hd] at h
          injection h with h
          injection h with _ h
          subst h
          omega
        · rw [if_neg hd] at h
          simp at h
    · rw [if_neg hcomma] at h
      simp at h

theorem closeBracket_length {acc : List ℕ} {cs : List Char} {hs : List ℕ}
    {rest : List Char} (h : closeBracket acc cs = some (hs, rest)) :
    rest.length < cs.length := by
  unfold closeBracket at h
  rcases cs with _ | ⟨c, cs'⟩
  · simp at h
  · dsimp only at h
    by_cases hc : c = ']'
    · rw [if_pos hc] at h
      injection h with h
      injection h with _ h
      subst h
      simp
    · rw [if_neg hc] at h
      simp at h

theorem matchReps_length {acc : List ℕ} {n : ℕ} {cs : List Char} {hs : List ℕ}
    {rest : List Char} (h : matchReps acc n cs = some (hs, rest)) :
    rest.length < cs.length := by
  induction n generalizing acc cs with
  | zero =>
    unfold matchReps at h
    exact closeBracket_length h
  | succ n ih =>
    unfold matchReps at h
    rcases h1 : matchOneRep cs with _ | ⟨d, cs'⟩ <;> rw [h1] at h <;>
      dsimp only at h
    · exact closeBracket_length h
    · rcases h2 : matchReps (acc ++ [d]) n cs' with _ | r <;> rw [h2] at h <;>
        dsimp only at h
      · exact closeBracket_length h
      · injection h with h
        subst h
        have := ih h2
        have := matchOneRep_length h1
        omega

theorem matchBracket_length {cs : List Char} {hs : List ℕ} {rest : List Char}
    (h : matchBracket cs = some (hs, rest)) : rest.length < cs.length := by
  unfold matchBracket at h
  rcases cs with _ | ⟨c, cs1⟩
  · simp at h
  · dsimp only at h
    by_cases hd : isHintDigit c
    · rw [if_pos hd] at h
      rcases h1 : matchOneRep cs1 with _ | ⟨d1, cs2⟩ <;> rw [h1] at h <;>
        dsimp only at h
      · simp at h
      · have := matchReps_length h
        have := matchOneRep_length h1
        simp
        omega
    · rw [if_neg hd] at h
      simp at h

/-- The `re.findall` scan, on fuel (one character is consumed per step,
so the input length is sufficient fuel; the fuel makes the definition
reduce in the kernel). -/
def tokenizeF : ℕ → List Char → List Item
  | _, [] => []
  | 0, _ :: _ => []
  | fuel + 1, c :: cs =>
    if isDigitCh c then Item.digit (digitVal c) :: tokenizeF fuel cs
    else if c = '[' then
      match matchBracket cs with
      | some (hs, rest) => Item.hintList hs :: tokenizeF fuel rest
      | none => tokenizeF fuel cs
    else tokenizeF fuel cs

/-- The `re.findall` scan. -/
def tokenize (cs : List Char) : List Item := tokenizeF cs.length cs

theorem tokenizeF_congr : ∀ (f1 f2 : ℕ) (cs : List Char), cs.length ≤ f1 →
    cs.length ≤ f2 → tokenizeF f1 cs = tokenizeF f2 cs := by
  intro f1
  induction f1 with
  | zero =>
    intro f2 cs h1 h2
    rcases cs with _ | ⟨c, cs⟩
    · cases f2 <;> rfl
    · simp at h1
  | succ f1 ih =>
    intro f2 cs h1 h2
    rcases cs with _ | ⟨c, cs⟩
    · cases f2 <;> rfl
    · rcases f2 with _ | f2
      · simp at h2
      · simp only [tokenizeF]
        simp at h1 h2
        by_cases hd : isDigitCh c
        · simp only [if_pos hd, ih f2 cs h1 h2]
        · simp only [if_neg hd]
          by_cases hb : c = '['
          · simp only [if_pos hb]
            rcases hmb : matchBracket cs with _ | ⟨hs, rest⟩ <;>
              simp only [hmb]
            · exact ih f2 cs h1 h2
            · have := matchBracket_length hmb
              rw [ih f2 rest (by omega) (by omega)]
          · simp only [if_neg hb]
            exact ih f2 cs h1 h2

theorem tokenize_cons_digit {c : Char} (cs : List Char) (h : isDigitCh c = true) :
    tokenize (c :: cs) = Item.digit (digitVal c) :: tokenize cs := by
  simp only [tokenize, List.length_cons, tokenizeF, if_pos h]

theorem tokenize_cons_bracket {cs : List Char} {hs : List ℕ} {rest : List Char}
    (hmb : matchBracket cs = some (hs, rest)) :
    tokenize ('[' :: cs) = Item.hintList hs :: tokenize rest := by
  have hb := matchBracket_length hmb
  simp only [tokenize, List.length_cons, tokenizeF]
  rw [if_neg (by decide)]
  rw [if_pos trivial, hmb]
  show Item.hintList hs :: tokenizeF cs.length rest =
    Item.hintList hs :: tokenizeF rest.length rest
  rw [tokenizeF_congr cs.length rest.length rest (by omega) (by omega)]

/-- The node built for one matched item in `Sudoku.load`: a digit gives
`Node(int(item))`, a bracketed list gives `Node(0)` followed by
`set_hints(set(re.findall("\d", item)))`.  (The digit is 0..9 by
construction, so the constructor's `check_value` cannot fire.) -/
def item_node : Item → Node
  | .digit d => ⟨d, decide (0 < d), none⟩
  | .hintList hs => ⟨0, false, some hs.toFinset⟩

/-- `Sudoku.load` (sudoku.py:398-415): scan, require exactly 81 items,
build the grid row-major, and construct the `Sudoku` (whose `setup`
validates every lot). -/
def Sudoku.load (text : String) : Except Err Sudoku :=
  let items := tokenize text.toList
  if items.length ≠ 81 then .error .valueErr
  else
    Sudoku.make ((List.range 9).map (fun i =>
      (List.range 9).map (fun j => item_node (items.getD (i * 9 + j) default))))

/-- The characters of a hint list as written by `Sudoku.save`:
`str(sorted(hints)).replace(" ", "")` = the sorted digits joined by
commas inside square brackets. -/
def comma_chars (l : List ℕ) : List Char :=
  l.flatMap (fun d => ',' :: (toString d).toList)

def digits_chars : List ℕ → List Char
  | [] => []
  | d :: tl => (toString d).toList ++ comma_chars tl

def hint_chars (l : List ℕ) : List Char :=
  '[' :: (digits_chars l ++ [']'])

/-- The text written for one cell by `Sudoku.save`: the value when the
node is complete, else the bracketed sorted hints (`sorted(None)` raises
`TypeError` when the hints are absent), else `0`. -/
def cell_chars (n : Node) (hints : Bool) : Except Err (List Char) :=
  if n.is_complete then .ok (toString n.value).toList
  else if hints then
    match n.hints with
    | some h => .ok (hint_chars (py_sorted h))
    | none => .error .typeErr
  else .ok ['0']

/-- `Sudoku.save` (sudoku.py:378-391): concatenate the cell texts in
row-major order. -/
def Sudoku.save (s : Sudoku) (hints : Bool) : Except Err String := do
  let parts ← allCells.mapM (fun p => cell_chars (s.get_node p.1 p.2) hints)
  .ok (String.mk parts.flatten)

/-! ## The Elimination Contract (playbook.py, class Strategy).

Observers ("hooks") are modelled by their veto decisions: a pure
predicate over the action passed to `pre_update`/`post_update`.  The
source fires the hooks in list order and returns `False` at the first
veto; with pure predicates the outcome is the same as testing them all.
Strategy state (`plan`, debug output, `reason`) does not influence the
board and is dropped.

The mutually recursive cascade (`update_node` refreshes every related
node when a node resolves, which can resolve further nodes) is given a
fuel parameter standing for the Python call stack; every recursive call
runs on decremented fuel, and exhaustion gives the artificial
`fuelErr`. -/

/-- The `action` dictionary passed to the update hooks. -/
structure UpdAction where
  pos : Pos
  remove : Bool
  acthints : List ℕ
deriving DecidableEq

structure Hook where
  pre_update : UpdAction → Bool
  post_update : UpdAction → Bool

/-- `Strategy.test_purge`: true when some listed incomplete node still
holds one of the hints.  `node.get_hints() & hints` raises `TypeError`
when the node has no hint set. -/
def test_purge (s : Sudoku) (ps : List Pos) (hints : Finset ℕ) : Except Err Bool :=
  match ps with
  | [] => .ok false
  | p :: ps =>
    let n := s.get_node p.1 p.2
    if n.is_complete then test_purge s ps hints
    else
      match n.hints with
      | none => .error .typeErr
      | some h => if h ∩ hints ≠ ∅ then .ok true else test_purge s ps hints

/-- `Strategy.test_update`: true when some listed incomplete node holds a
hint outside the given set. -/
def test_update (s : Sudoku) (ps : List Pos) (hints : Finset ℕ) : Except Err Bool :=
  match ps with
  | [] => .ok false
  | p :: ps =>
    let n := s.get_node p.1 p.2
    if n.is_complete then test_update s ps hints
    else
      match n.hints with
      | none => .error .typeErr
      | some h => if h \ hints ≠ ∅ then .ok true else test_update s ps hints

mutual

/-- `Strategy.update_node` (playbook.py:495-525): fire the pre-update
hooks (a veto returns `False` before any mutation), run `node.update`,
fire the post-update hooks (a veto returns `False`, skipping the
cascade), and refresh every related node once the node is complete. -/
def update_node : ℕ → List Hook → Sudoku → Pos → Finset ℕ → UpdAction →
    Except Err (Sudoku × Bool)
  | 0, _, _, _, _, _ => .error .fuelErr
  | fuel + 1, hooks, s, p, hints, action =>
    if !hooks.all (fun hk => hk.pre_update action) then .ok (s, false)
    else do
      let (n', _) ← (s.get_node p.1 p.2).update hints
      let s' := s.put p n'
      if !hooks.all (fun hk => hk.post_update action) then .ok (s', false)
      else if n'.is_complete then do
        let s'' ← refresh_list fuel hooks s' (find_related p)
        .ok (s'', true)
      else .ok (s', true)

/-- The `for x in node.find_related(): self.refresh_node(plan, x)` loop
of `update_node` (each refresh's status is ignored). -/
def refresh_list : ℕ → List Hook → Sudoku → List Pos → Except Err Sudoku
  | 0, _, _, _ => .error .fuelErr
  | _ + 1, _, s, [] => .ok s
  | fuel + 1, hooks, s, p :: ps => do
    let (s', _) ← refresh_node fuel hooks s p
    refresh_list fuel hooks s' ps

/-- `Strategy.refresh_node` (playbook.py:471-486): recompute the node's
hints from the missing values of its three lots; an empty intersection
raises `LogicException`; a node without hints is seeded via
`update_node`, otherwise the new hints are applied via `update_hints`. -/
def refresh_node : ℕ → List Hook → Sudoku → Pos → Except Err (Sudoku × Bool)
  | 0, _, _, _ => .error .fuelErr
  | fuel + 1, hooks, s, p =>
    let n := s.get_node p.1 p.2
    if n.is_complete then .ok (s, false)
    else
      let hints := Lot.get_missing_values (s.rowNodes p.1) ∩
        Lot.get_missing_values (s.colNodes p.2) ∩
        Lot.get_missing_values (s.boxNodes (boxOf p.1 p.2))
      if hints = ∅ then .error .logicErr
      else if !n.has_hints then
        update_node fuel hooks s p hints ⟨p, false, py_sorted hints⟩
      else update_hints fuel hooks s [p] hints

/-- `Strategy.update_hints` (playbook.py:456-464): for each incomplete
node, purge the hints outside the given set. -/
def update_hints : ℕ → List Hook → Sudoku → List Pos → Finset ℕ →
    Except Err (Sudoku × Bool)
  | 0, _, _, _, _ => .error .fuelErr
  | _ + 1, _, s, [], _ => .ok (s, false)
  | fuel + 1, hooks, s, p :: ps, hints =>
    let n := s.get_node p.1 p.2
    if n.is_complete then update_hints fuel hooks s ps hints
    else
      match n.hints with
      | none => .error .typeErr
      | some h => do
        let (s', st) ← purge_hints fuel hooks s [p] (h \ hints)
        let (s'', st') ← update_hints fuel hooks s' ps hints
        .ok (s'', st || st')

/-- `Strategy.purge_hints` (playbook.py:429-443): for each incomplete
node that would actually change, update it to its hints minus the purged
set. -/
def purge_hints : ℕ → List Hook → Sudoku → List Pos → Finset ℕ →
    Except Err (Sudoku × Bool)
  | 0, _, _, _, _ => .error .fuelErr
  | _ + 1, _, s, [], _ => .ok (s, false)
  | fuel + 1, hooks, s, p :: ps, hints => do
    let n := s.get_node p.1 p.2
    if n.is_complete then purge_hints fuel hooks s ps hints
    else do
      let tp ← test_purge s [p] hints
      if tp then do
        let (s', st) ← update_node fuel hooks s p ((n.hints.getD ∅) \ hints)
          ⟨p, true, py_sorted hints⟩
        let (s'', st') ← purge_hints fuel hooks s' ps hints
        .ok (s'', st || st')
      else purge_hints fuel hooks s ps hints

end

/-- `Singleton.run` (strategy/singleton.py:44-46): refresh every node of
the board; the comprehension evaluates all 81 refreshes and `any`
collects the statuses. -/
def singleton_list : ℕ → List Hook → Sudoku → List Pos → Except Err (Sudoku × Bool)
  | _, _, s, [] => .ok (s, false)
  | fuel, hooks, s, p :: ps => do
    let (s', st) ← refresh_node fuel hooks s p
    let (s'', st') ← singleton_list fuel hooks s' ps
    .ok (s'', st || st')

def singleton_run (fuel : ℕ) (hooks : List Hook) (s : Sudoku) :
    Except Err (Sudoku × Bool) :=
  singleton_list fuel hooks s allCells

/-! ## The Scheduler (playbook.py, class Plan).

A strategy is embedded as its name, its `one_shot` flag and its `run`
function.  `Plan.iterate`/`Plan.attack` are instrumented with the list
of strategy executions, in order — the information the source exposes
through the `pre_run` hooks; the control flow is exactly that of the
source, which never consults `one_shot`. -/

structure SchedStrat where
  name : String
  os_flag : Bool
  runs : ℕ → Sudoku → Except Err (Sudoku × Bool)

/-- `Plan.done` (playbook.py:196-200): not done while incomplete;
otherwise validate every lot (which, see `Lot.validate`, cannot fail)
and report done. -/
def plan_done (s : Sudoku) : Except Err Bool :=
  if !s.is_complete then .ok false
  else do
    Sudoku.validateAll s
    .ok true

/-- The inner loop of `Plan.iterate` over one level's strategies:
`status` latches any progress, and the loop breaks as soon as the board
is done after a progressing strategy.  (With no run hooks configured,
`Strategy.execute` reduces to `run`.) -/
def run_level : ℕ → List SchedStrat → Sudoku → Except Err (Sudoku × Bool × List String)
  | _, [], s => .ok (s, false, [])
  | fuel, st :: sts, s => do
    let (s1, prog) ← st.runs fuel s
    if prog then do
      let d ← plan_done s1
      if d then .ok (s1, true, [st.name])
      else do
        let (s2, _, tr) ← run_level fuel sts s1
        .ok (s2, true, st.name :: tr)
    else do
      let (s2, prog2, tr) ← run_level fuel sts s1
      .ok (s2, prog2, st.name :: tr)

/-- `Plan.iterate` (playbook.py:184-194): walk the levels in ascending
order (the list is given sorted, modelling `sorted(self.strategies.keys())`)
and return `True` as soon as one level reports progress. -/
def plan_iterate : ℕ → List (ℕ × List SchedStrat) → Sudoku →
    Except Err (Sudoku × Bool × List String)
  | _, [], s => .ok (s, false, [])
  | fuel, (_, sts) :: rest, s => do
    let (s1, status, tr) ← run_level fuel sts s
    if status then .ok (s1, true, tr)
    else do
      let (s2, st2, tr2) ← plan_iterate fuel rest s1
      .ok (s2, st2, tr ++ tr2)

/-- `Plan.attack` (playbook.py:202-208): iterate until done, or report
failure when an iteration makes no progress. -/
def plan_attack : ℕ → List (ℕ × List SchedStrat) → Sudoku →
    Except Err (Sudoku × Bool × List String)
  | 0, _, _ => .error .fuelErr
  | fuel + 1, levels, s => do
    let d ← plan_done s
    if d then .ok (s, true, [])
    else do
      let (s1, progress, tr) ← plan_iterate fuel levels s
      if progress then do
        let (s2, result, tr2) ← plan_attack fuel levels s1
        .ok (s2, result, tr ++ tr2)
      else .ok (s1, false, tr)

/-! ## Trial search (strategy/trial.py).

The nested run `Playbook.solve(trial, options, True)` — clone options,
disable strategies above level 1, build a plan, attack — is abstracted
by an oracle `Sudoku → Except Err Bool`: `ok true` is success, `ok
false` an impasse, `error logicErr` a contradiction of the trial run. -/

/-- `Trial.try_hints` (strategy/trial.py:14-36): snapshot the board, set
the hypothesized values on the copy, run the nested solver; on success
the original commits the copy (`sudoku.copy(trial)`). -/
def try_hints (oracle : Sudoku → Except Err Bool) (s : Sudoku)
    (hyps : List (Pos × ℕ)) : Except Err (Sudoku × Bool) := do
  let trial0 ← s.snap
  let trial ← hyps.foldlM (fun t ph => do
    let n ← (t.get_node ph.1.1 ph.1.2).set_value ph.2
    .ok (t.put ph.1 n)) trial0
  let st ← oracle trial
  if st then .ok (trial, true) else .ok (s, false)

/-- The `except LogicException` handler shared by all trial arities:
purge the hypothesis hint from the (original) node, and return success
when the node thereby completed. -/
def trial_purge (fuel : ℕ) (hooks : List Hook) (s : Sudoku) (p : Pos) (h : ℕ) :
    Except Err (Sudoku × Option Bool) := do
  let (s', _) ← purge_hints fuel hooks s [p] {h}
  if (s'.get_node p.1 p.2).is_complete then .ok (s', some true)
  else .ok (s', none)

/-- The `for hint in node.get_hints()` body of `TrialOne.run`
(strategy/trial.py:57-70): try the single hypothesis; a contradiction
purges the hint. -/
def trial_one_hint_loop (oracle : Sudoku → Except Err Bool) (fuel : ℕ)
    (hooks : List Hook) (s : Sudoku) (p : Pos) :
    List ℕ → Except Err (Sudoku × Bool)
  | [] => .ok (s, false)
  | h :: hs =>
    match try_hints oracle s [(p, h)] with
    | .ok (s', true) => .ok (s', true)
    | .ok (_, false) => trial_one_hint_loop oracle fuel hooks s p hs
    | .error .logicErr => do
      let (s', r) ← trial_purge fuel hooks s p h
      match r with
      | some b => .ok (s', b)
      | none => trial_one_hint_loop oracle fuel hooks s' p hs
    | .error e => .error e

/-- The outer `for node in sudoku.get_incomplete()` loop of the trial
runs.  Iterating `node.get_hints()` when it is `None` is Python's
`TypeError`. -/
def trial_one_node_loop (oracle : Sudoku → Except Err Bool) (fuel : ℕ)
    (hooks : List Hook) (s : Sudoku) : List Pos → Except Err (Sudoku × Bool)
  | [] => .ok (s, false)
  | p :: ps =>
    match (s.get_node p.1 p.2).get_hints with
    | none => .error .typeErr
    | some h => do
      let (s', st) ← trial_one_hint_loop oracle fuel hooks s p (py_sorted h)
      if st then .ok (s', true)
      else trial_one_node_loop oracle fuel hooks s' ps

/-- `TrialOne.run`. -/
def trial_one_run (oracle : Sudoku → Except Err Bool) (fuel : ℕ)
    (hooks : List Hook) (s : Sudoku) : Except Err (Sudoku × Bool) :=
  trial_one_node_loop oracle fuel hooks s s.incomplete

/-- The `for hint2 in node2.get_hints()` loop of `TrialTwo.run`
(strategy/trial.py:85-105), threading the `invalid` flag: a success
returns, an impasse clears `invalid`, a `LogicException` continues. -/
def trial_two_inner2 (oracle : Sudoku → Except Err Bool) (s : Sudoku)
    (p : Pos) (h : ℕ) (p2 : Pos) :
    List ℕ → Bool → Except Err (Option Sudoku × Bool)
  | [], invalid => .ok (none, invalid)
  | h2 :: rest, invalid =>
    match try_hints oracle s [(p, h), (p2, h2)] with
    | .ok (t, true) => .ok (some t, invalid)
    | .ok (_, false) => trial_two_inner2 oracle s p h p2 rest false
    | .error .logicErr => trial_two_inner2 oracle s p h p2 rest invalid
    | .error e => .error e

/-- The `for node2 in sudoku.get_incomplete()` loop of `TrialTwo.run`
(skipping the first node). -/
def trial_two_inner1 (oracle : Sudoku → Except Err Bool) (s : Sudoku)
    (p : Pos) (h : ℕ) : List Pos → Bool → Except Err (Option Sudoku × Bool)
  | [], invalid => .ok (none, invalid)
  | p2 :: ps, invalid =>
    if p2 = p then trial_two_inner1 oracle s p h ps invalid
    else
      match (s.get_node p2.1 p2.2).get_hints with
      | none => .error .typeErr
      | some hs2 => do
        let (res, invalid') ← trial_two_inner2 oracle s p h p2
          (py_sorted hs2) invalid
        match res with
        | some t => .ok (some t, invalid')
        | none => trial_two_inner1 oracle s p h ps invalid'

/-- One `(node, hint)` step of `TrialTwo.run`: search all second
hypotheses; if every combination raised a contradiction (`invalid`
remained set), purge the hint from the first node. -/
def trial_two_step (oracle : Sudoku → Except Err Bool) (fuel : ℕ)
    (hooks : List Hook) (s : Sudoku) (p : Pos) (h : ℕ) :
    Except Err (Sudoku × Option Bool) := do
  let (res, invalid) ← trial_two_inner1 oracle s p h s.incomplete true
  match res with
  | some t => .ok (t, some true)
  | none =>
    if invalid then trial_purge fuel hooks s p h
    else .ok (s, none)

def trial_two_hint_loop (oracle : Sudoku → Except Err Bool) (fuel : ℕ)
    (hooks : List Hook) (s : Sudoku) (p : Pos) :
    List ℕ → Except Err (Sudoku × Bool)
  | [] => .ok (s, false)
  | h :: hs => do
    let (s', r) ← trial_two_step oracle fuel hooks s p h
    match r with
    | some b => .ok (s', b)
    | none => trial_two_hint_loop oracle fuel hooks s' p hs

def trial_two_node_loop (oracle : Sudoku → Except Err Bool) (fuel : ℕ)
    (hooks : List Hook) (s : Sudoku) : List Pos → Except Err (Sudoku × Bool)
  | [] => .ok (s, false)
  | p :: ps =>
    match (s.get_node p.1 p.2).get_hints with
    | none => .error .typeErr
    | some h => do
      let (s', st) ← trial_two_hint_loop oracle fuel hooks s p (py_sorted h)
      if st then .ok (s', true)
      else trial_two_node_loop oracle fuel hooks s' ps

/-- `TrialTwo.run`. -/
def trial_two_run (oracle : Sudoku → Except Err Bool) (fuel : ℕ)
    (hooks : List Hook) (s : Sudoku) : Except Err (Sudoku × Bool) :=
  trial_two_node_loop oracle fuel hooks s s.incomplete

/-- The `for hint3 in node3.get_hints()` loop of `TrialThree.run`
(strategy/trial.py:119-143). -/
def trial_three_inner3 (oracle : Sudoku → Except Err Bool) (s : Sudoku)
    (p : Pos) (h : ℕ) (p2 : Pos) (h2 : ℕ) (p3 : Pos) :
    List ℕ → Bool → Except Err (Option Sudoku × Bool)
  | [], invalid => .ok (none, invalid)
  | h3 :: rest, invalid =>
    match try_hints oracle s [(p, h), (p2, h2), (p3, h3)] with
    | .ok (t, true) => .ok (some t, invalid)
    | .ok (_, false) => trial_three_inner3 oracle s p h p2 h2 p3 rest false
    | .error .logicErr => trial_three_inner3 oracle s p h p2 h2 p3 rest invalid
    | .error e => .error e

/-- The `for node3 in sudoku.get_incomplete()` loop (skipping both
earlier nodes). -/
def trial_three_inner2b (oracle : Sudoku → Except Err Bool) (s : Sudoku)
    (p : Pos) (h : ℕ) (p2 : Pos) (h2 : ℕ) :
    List Pos → Bool → Except Err (Option Sudoku × Bool)
  | [], invalid => .ok (none, invalid)
  | p3 :: ps, invalid =>
    if p3 = p ∨ p3 = p2 then trial_three_inner2b oracle s p h p2 h2 ps invalid
    else
      match (s.get_node p3.1 p3.2).get_hints with
      | none => .error .typeErr
      | some hs3 => do
        let (res, invalid') ← trial_three_inner3 oracle s p h p2 h2 p3
          (py_sorted hs3) invalid
        match res with
        | some t => .ok (some t, invalid')
        | none => trial_three_inner2b oracle s p h p2 h2 ps invalid'

/-- The `for hint2 in node2.get_hints()` loop of `TrialThree.run`. -/
def trial_three_inner2a (oracle : Sudoku → Except Err Bool) (s : Sudoku)
    (p : Pos) (h : ℕ) (p2 : Pos) :
    List ℕ → Bool → Except Err (Option Sudoku × Bool)
  | [], invalid => .ok (none, invalid)
  | h2 :: rest, invalid => do
    let (res, invalid') ← trial_three_inner2b oracle s p h p2 h2
      s.incomplete invalid
    match res with
    | some t => .ok (some t, invalid')
    | none => trial_three_inner2a oracle s p h p2 rest invalid'

/-- The `for node2 in sudoku.get_incomplete()` loop of `TrialThree.run`. -/
def trial_three_inner1 (oracle : Sudoku → Except Err Bool) (s : Sudoku)
    (p : Pos) (h : ℕ) : List Pos → Bool → Except Err (Option Sudoku × Bool)
  | [], invalid => .ok (none, invalid)
  | p2 :: ps, invalid =>
    if p2 = p then trial_three_inner1 oracle s p h ps invalid
    else
      match (s.get_node p2.1 p2.2).get_hints with
      | none => .error .typeErr
      | some hs2 => do
        let (res, invalid') ← trial_three_inner2a oracle s p h p2
          (py_sorted hs2) invalid
        match res with
        | some t => .ok (some t, invalid')
        | none => trial_three_inner1 oracle s p h ps invalid'

/-- One `(node, hint)` step of `TrialThree.run`. -/
def trial_three_step (oracle : Sudoku → Except Err Bool) (fuel : ℕ)
    (hooks : List Hook) (s : Sudoku) (p : Pos) (h : ℕ) :
    Except Err (Sudoku × Option Bool) := do
  let (res, invalid) ← trial_three_inner1 oracle s p h s.incomplete true
  match res with
  | some t => .ok (t, some true)
  | none =>
    if invalid then trial_purge fuel hooks s p h
    else .ok (s, none)

def trial_three_hint_loop (oracle : Sudoku → Except Err Bool) (fuel : ℕ)
    (hooks : List Hook) (s : Sudoku) (p : Pos) :
    List ℕ → Except Err (Sudoku × Bool)
  | [] => .ok (s, false)
  | h :: hs => do
    let (s', r) ← trial_three_step oracle fuel hooks s p h
    match r with
    | some b => .ok (s', b)
    | none => trial_three_hint_loop oracle fuel hooks s' p hs

def trial_three_node_loop (oracle : Sudoku → Except Err Bool) (fuel : ℕ)
    (hooks : List Hook) (s : Sudoku) : List Pos → Except Err (Sudoku × Bool)
  | [] => .ok (s, false)
  | p :: ps =>
    match (s.get_node p.1 p.2).get_hints with
    | none => .error .typeErr
    | some h => do
      let (s', st) ← trial_three_hint_loop oracle fuel hooks s p (py_sorted h)
      if st then .ok (s', true)
      else trial_three_node_loop oracle fuel hooks s' ps

/-- `TrialThree.run`. -/
def trial_three_run (oracle : Sudoku → Except Err Bool) (fuel : ℕ)
    (hooks : List Hook) (s : Sudoku) : Except Err (Sudoku × Bool) :=
  trial_three_node_loop oracle fuel hooks s s.incomplete

/-! ## Chains and AIC loops (strategy/chain.py, strategy/aic.py).

A chain link is `(group, hint)` where the group is a tuple of nodes; a
chain entry is `(link, color)`.  The helper functions are polymorphic in
the group type (the Python code is untyped); the board-level processing
instantiates it with `List Pos`.  Python sets built from chains are
modelled as duplicate-free lists in first-appearance order. -/

/-- Python `set(...)` built by insertion from a list: duplicates removed,
first-appearance order kept. -/
def setList {α : Type} [DecidableEq α] (l : List α) : List α :=
  l.foldl (fun acc x => if x ∈ acc then acc else acc ++ [x]) []

/-- Python's `chain[first::step]` stride, on fuel. -/
def everyNF {α : Type} : ℕ → ℕ → List α → List α
  | _, _, [] => []
  | 0, _, _ :: _ => []
  | fuel + 1, step, x :: xs => x :: everyNF fuel step (xs.drop (step - 1))

def everyN {α : Type} (step : ℕ) (l : List α) : List α := everyNF l.length step l

/-- Python's `chain[first::step]` slice. -/
def sliceStep {α : Type} (l : List α) (first step : ℕ) : List α :=
  everyN step (l.drop first)

/-- `Chain.chain_all_links` (chain.py:171-174): the set of links in the
sliced chain, optionally filtered by hint and color. -/
def chain_all_links {γ : Type} [DecidableEq γ] (chain : List ((γ × ℕ) × Bool))
    (hint : Option ℕ) (color : Option Bool) (first step : ℕ) : List (γ × ℕ) :=
  setList (((sliceStep chain first step).filter (fun lc =>
    (match hint with
     | none => true
     | some hh => lc.1.2 == hh) &&
    (match color with
     | none => true
     | some cc => lc.2 == cc))).map (·.1))

/-- `Chain.chain_all_groups` (chain.py:179-180). -/
def chain_all_groups {γ : Type} [DecidableEq γ] (chain : List ((γ × ℕ) × Bool))
    (hint : Option ℕ) (color : Option Bool) (first step : ℕ) : List γ :=
  setList ((chain_all_links chain hint color first step).map (·.1))

/-- `Chain.chain_all_hints` (chain.py:191-192). -/
def chain_all_hints {γ : Type} [DecidableEq γ] (chain : List ((γ × ℕ) × Bool))
    (color : Option Bool) (first step : ℕ) : List ℕ :=
  setList ((chain_all_links chain none color first step).map (·.2))

/-- `Chain.chain_group_hints` (chain.py:197-198): the hints the chain
holds on one group, optionally restricted to a color. -/
def chain_group_hints {γ : Type} [DecidableEq γ] (chain : List ((γ × ℕ) × Bool))
    (group : γ) (color : Option Bool) : List ℕ :=
  setList (((chain_all_links chain none color 0 1).filter
    (fun l => l.1 == group)).map (·.2))

def chain_flip_link {γ : Type} (loc : (γ × ℕ) × Bool) : (γ × ℕ) × Bool :=
  (loc.1, !loc.2)

/-- `Chain.chain_flip` (chain.py:219-220). -/
def chain_flip {γ : Type} (chain : List ((γ × ℕ) × Bool)) : List ((γ × ℕ) × Bool) :=
  chain.map chain_flip_link

/-- `Chain.chain_reverse_flip` (chain.py:226-230): successively insert
each flipped link at the front — the reverse of the flipped chain. -/
def chain_reverse_flip {γ : Type} (chain : List ((γ × ℕ) × Bool)) :
    List ((γ × ℕ) × Bool) :=
  (chain.map chain_flip_link).reverse

/-- `Loop.loop_contig` (aic.py:131-139): all links distinct, and the
even positions are the `False` links, the odd positions the `True`
links. -/
def loop_contig {γ : Type} [DecidableEq γ] (cycle : List ((γ × ℕ) × Bool)) : Bool :=
  let links := chain_all_links cycle none none 0 1
  if links.length ≠ cycle.length then false
  else
    let ons := chain_all_links cycle none (some true) 1 2
    let offs := chain_all_links cycle none (some false) 0 2
    ons.length == offs.length && offs.length + ons.length == links.length

/-- `cycle[1:-1]`. -/
def midSection {γ : Type} (cycle : List ((γ × ℕ) × Bool)) : List ((γ × ℕ) × Bool) :=
  (cycle.drop 1).dropLast

/-- `Loop.loop_strong` (aic.py:144-155). -/
def loop_strong {γ : Type} [DecidableEq γ] (cycle : List ((γ × ℕ) × Bool)) : Bool :=
  let links := chain_all_links cycle none none 0 1
  if links.length + 1 ≠ cycle.length then false
  else if !loop_contig (chain_flip (midSection cycle)) then false
  else
    match cycle.head?, cycle.getLast? with
    | some (head, hc), some (tail, tc) => head == tail && !hc && tc
    | _, _ => false

/-- `Loop.loop_weak` (aic.py:160-171). -/
def loop_weak {γ : Type} [DecidableEq γ] (cycle : List ((γ × ℕ) × Bool)) : Bool :=
  let links := chain_all_links cycle none none 0 1
  if links.length + 1 ≠ cycle.length then false
  else if !loop_contig (midSection cycle) then false
  else
    match cycle.head?, cycle.getLast? with
    | some (head, hc), some (tail, tc) => head == tail && hc && !tc
    | _, _ => false

/-- `Loop.loop_duplicate_oneway` (aic.py:177-181): the first chain is a
rotation of the second, anchored at the index of its head in the other
chain. -/
def loop_duplicate_oneway {γ : Type} [DecidableEq γ]
    (cycle other : List ((γ × ℕ) × Bool)) : Bool :=
  match cycle.head? with
  | none => false
  | some c0 =>
    if c0 ∈ other then
      let index := other.indexOf c0
      cycle == other.drop index ++ other.take index
    else false

/-- `Loop.loop_duplicate_contig` (aic.py:188-190). -/
def loop_duplicate_contig {γ : Type} [DecidableEq γ]
    (cycle other : List ((γ × ℕ) × Bool)) : Bool :=
  loop_duplicate_oneway cycle other ||
    loop_duplicate_oneway (chain_reverse_flip cycle) other

/-- `Loop.loop_duplicate_strong` (aic.py:196-197). -/
def loop_duplicate_strong {γ : Type} [DecidableEq γ]
    (cycle other : List ((γ × ℕ) × Bool)) : Bool :=
  cycle.head? == other.head? &&
    chain_reverse_flip (midSection cycle) == midSection other

/-- `Loop.loop_duplicate_weak` (aic.py:203-204). -/
def loop_duplicate_weak {γ : Type} [DecidableEq γ]
    (cycle other : List ((γ × ℕ) × Bool)) : Bool :=
  cycle.head? == other.head? &&
    chain_reverse_flip (midSection cycle) == midSection other

/-- `Loop.loop_duplicate` (aic.py:209-218).  Note the source tests
`loop_contig(cycle)` twice (never `other`); translated as written. -/
def loop_duplicate {γ : Type} [DecidableEq γ]
    (cycle other : List ((γ × ℕ) × Bool)) : Bool :=
  if cycle.length ≠ other.length then false
  else if loop_contig cycle && loop_contig cycle then
    loop_duplicate_contig cycle other
  else if loop_strong cycle && loop_strong other then
    loop_duplicate_strong cycle other
  else if loop_weak cycle && loop_weak other then
    loop_duplicate_weak cycle other
  else false

/-! ### Board-level loop processing (aic.py:256-305). -/

/-- `Strategy.join_related` (playbook.py:394-395): the cells visible to
every node of the group, the group itself excluded. -/
def join_related (ps : List Pos) : List Pos :=
  if ps.isEmpty then []
  else (allCells.filter (fun q => ps.all (fun p => relatedB q p))).filter
    (fun q => !ps.contains q)

/-- `Chain.chain_group_related` (chain.py:134-135). -/
def chain_group_related (groups : List (List Pos)) : List Pos :=
  setList (groups.flatMap join_related)

/-- The first group/color pair of a contiguous loop holding at least two
same-colored hints (`len(hints) < 2: continue`), colors probed in the
order `[True, False]`. -/
def find_same_color (cycle : List ((List Pos × ℕ) × Bool)) :
    Option (List Pos × Bool) :=
  (chain_all_groups cycle none none 0 1).findSome? (fun g =>
    if 2 ≤ (chain_group_hints cycle g (some true)).length then some (g, true)
    else if 2 ≤ (chain_group_hints cycle g (some false)).length then some (g, false)
    else none)

/-- The dual-color pass of `loop_process_contig`: a group carrying more
than one hint keeps only the chain's hints on it (the return value of
`update_hints` is ignored; `status` is set unconditionally). -/
def dual_color_pass (fuel : ℕ) (hooks : List Hook) :
    Sudoku → List (List Pos) → List ((List Pos × ℕ) × Bool) →
    Except Err (Sudoku × Bool)
  | s, [], _ => .ok (s, false)
  | s, g :: gs, cycle => do
    let hints := chain_group_hints cycle g none
    if hints.length == 1 then dual_color_pass fuel hooks s gs cycle
    else do
      let tu ← test_update s g hints.toFinset
      if tu then do
        let (s', _) ← update_hints fuel hooks s g hints.toFinset
        let (s'', st') ← dual_color_pass fuel hooks s' gs cycle
        .ok (s'', true || st')
      else do
        dual_color_pass fuel hooks s gs cycle

/-- The off-chain pass of `loop_process_contig`: a cell seeing the same
hint in both colors of the loop drops that hint. -/
def off_chain_pass (fuel : ℕ) (hooks : List Hook) :
    Sudoku → List ℕ → List ((List Pos × ℕ) × Bool) → Except Err (Sudoku × Bool)
  | s, [], _ => .ok (s, false)
  | s, hint :: hints, cycle => do
    let offs := chain_group_related
      ((chain_all_links cycle (some hint) (some false) 0 2).map (·.1))
    let ons := chain_group_related
      ((chain_all_links cycle (some hint) (some true) 1 2).map (·.1))
    let intersect := ons.filter (fun q => offs.contains q)
    let tp ← test_purge s intersect {hint}
    if tp then do
      let (s', _) ← purge_hints fuel hooks s intersect {hint}
      let (s'', st') ← off_chain_pass fuel hooks s' hints cycle
      .ok (s'', true || st')
    else off_chain_pass fuel hooks s hints cycle

/-- `Loop.loop_process_contig` (aic.py:271-305).  When some group holds
two same-colored hints, the source executes
`return self.loop_purge_color(plan, cycle, color, reason, note)` — a
call with five arguments to a method declared with four
(aic.py:260-266 takes only `plan, cycle, color, reason`), so Python
raises `TypeError` before any elimination; modelled as `typeErr`.
Otherwise the dual-color and off-chain passes run and the function falls
off its end, returning Python's implicit `None` (modelled as the
`none` in the result). -/
def loop_process_contig (fuel : ℕ) (hooks : List Hook) (s : Sudoku)
    (cycle : List ((List Pos × ℕ) × Bool)) : Except Err (Sudoku × Option Bool) :=
  match find_same_color cycle with
  | some _ => .error .typeErr
  | none => do
    let (s1, _) ← dual_color_pass fuel hooks s
      (chain_all_groups cycle none none 0 1) cycle
    let (s2, _) ← off_chain_pass fuel hooks s1
      (chain_all_hints cycle none 0 1) cycle
    .ok (s2, none)

/-- `Loop.loop_purge_color` (aic.py:260-266) as declared: purge every
hint the loop holds with the given color from each of its groups.  (The
only call site passes an extra argument, so this code is unreachable.) -/
def loop_purge_color (fuel : ℕ) (hooks : List Hook) :
    Sudoku → List (List Pos) → List ((List Pos × ℕ) × Bool) → Bool →
    Except Err (Sudoku × Bool)
  | s, [], _, _ => .ok (s, false)
  | s, g :: gs, cycle, color => do
    let hints := chain_group_hints cycle g (some color)
    let (s', st) ← purge_hints fuel hooks s g hints.toFinset
    let (s'', st') ← loop_purge_color fuel hooks s' gs cycle color
    .ok (s'', st || st')

/-! ## Shared helper lemmas. -/

theorem lot_validate_ok (ns : List Node) : Lot.validate ns = .ok () := by
  simp [Lot.validate]

theorem sudoku_validateAll_ok (s : Sudoku) : s.validateAll = .ok () := by
  have h0 : ∀ (l : List ℕ),
      (l.forM (fun _ => (Except.ok () : Except Err Unit))) = .ok () := by
    intro l
    induction l with
    | nil => rfl
    | cons x xs ih =>
      simp [List.forM_cons, ih]
      rfl
  simp [Sudoku.validateAll, lot_validate_ok, h0]
  rfl

theorem sudoku_make_ok (s : Sudoku) : Sudoku.make s = .ok s := by
  simp [Sudoku.make, sudoku_validateAll_ok]
  rfl

theorem mapM_ok {α β : Type} (f : α → Except Err β) (g : α → β) (l : List α)
    (h : ∀ x ∈ l, f x = .ok (g x)) : l.mapM f = .ok (l.map g) := by
  induction l with
  | nil => rfl
  | cons x xs ih =>
    rw [List.mapM_cons, h x (by simp)]
    rw [ih (fun y hy => h y (by simp [hy]))]
    rfl

theorem getD_map_node (f : Node → Node) (l : List Node) (i : ℕ)
    (hd : f default = default) : (l.map f).getD i default = f (l.getD i default) := by
  induction l generalizing i with
  | nil => simpa using hd.symm
  | cons x xs ih =>
    cases i with
    | zero => rfl
    | succ i => simpa using ih i

theorem getD_map_row (f : List Node → List Node) (l : List (List Node)) (i : ℕ)
    (hd : f [] = []) : (l.map f).getD i [] = f (l.getD i []) := by
  induction l generalizing i with
  | nil => simpa using hd.symm
  | cons x xs ih =>
    cases i with
    | zero => rfl
    | succ i => simpa using ih i

/-! ## Claim theorems. -/

deriving instance DecidableEq for Except

/-- The 81-digit encoding that places the digit 1 twice in row `A`. -/
def c1_dupText : String := String.mk ('1' :: '1' :: List.replicate 79 '0')

/-- C1: the claim says duplicate resolved values in a constraint group
are rejected when a board is loaded or verified.  The code's check is
vacuous: `Lot.validate` compares the size of the (already deduplicated)
value set with itself, so it never raises, and `Sudoku.load` accepts an
81-element text that places the digit 1 twice in row `A` — both cells
load as resolved 1 in the same row. -/
theorem c1_validate_vacuous_dup_board_loads :
    (∀ ns : List Node, Lot.validate ns = .ok ())
    ∧ (∀ s : Sudoku, Sudoku.validateAll s = .ok ())
    ∧ (Sudoku.load c1_dupText).map
        (fun b => ((b.get_node 0 0).value, (b.get_node 0 1).value)) = .ok (1, 1) :=
  ⟨lot_validate_ok, sudoku_validateAll_ok, by decide⟩

theorem check_value_ok (v : ℕ) (h1 : 1 ≤ v) (h9 : v ≤ 9) :
    Node.check_value v false = .ok () := by
  unfold Node.check_value
  rw [if_neg (by omega)]
  rw [if_neg (by simp; omega)]

theorem set_value_ok (n : Node) (v : ℕ) (h1 : 1 ≤ v) (h9 : v ≤ 9) :
    n.set_value v = .ok ⟨v, n.preset, none⟩ := by
  unfold Node.set_value
  rw [check_value_ok v h1 h9]
  rfl

/-- C2: the Elimination Contract's cell mutation (`Node.update`, through
which purge/replace/refresh all store hints): on a cell with candidate
set `H`, (1) a mutation that would empty the set raises `LogicException`
instead of storing it, (2) any stored result is a nonempty subset of `H`
(never a gain) or the cell resolves, and (3) when the intersection
collapses to a single value the cell resolves. -/
theorem c2_node_update_contract (n : Node) (H hints : Finset ℕ)
    (hH : n.hints = some H) (hrange : H ⊆ Finset.Icc 1 9) :
    (hints ∩ H = ∅ → n.update hints = .error .logicErr)
    ∧ (∀ n' chg, n.update hints = .ok (n', chg) →
        (∃ H', n'.hints = some H' ∧ H' ⊆ H ∧ H'.Nonempty) ∨
          (n'.is_complete = true ∧ n'.hints = none))
    ∧ (((hints ∩ H).card = 1) →
        ∃ n', n.update hints = .ok (n', true) ∧ n'.is_complete = true ∧
          n'.hints = none) := by
  obtain ⟨v, p, hn⟩ := n
  simp only [Node.hints] at hH
  subst hH
  have hInterH : hints ∩ H ∩ H = hints ∩ H := by
    rw [Finset.inter_assoc, Finset.inter_self]
  refine ⟨?_, ?_, ?_⟩
  · intro h0
    unfold Node.update
    dsimp only
    rw [dif_pos h0]
  · intro n' chg hok
    unfold Node.update at hok
    dsimp only at hok
    by_cases h0 : hints ∩ H = ∅
    · rw [dif_pos h0] at hok
      exact absurd hok (by simp)
    · rw [dif_neg h0] at hok
      have hne : (hints ∩ H).Nonempty := Finset.nonempty_iff_ne_empty.mpr h0
      by_cases h1 : 1 < (hints ∩ H).card
      · rw [if_pos h1] at hok
        left
        unfold Node.set_hints at hok
        dsimp only at hok
        rw [hInterH] at hok
        by_cases h2 : hints ∩ H = H
        · rw [if_pos h2] at hok
          injection hok with hok
          have hn' : n' = ⟨v, p, some H⟩ := (congrArg Prod.fst hok).symm
          rw [hn']
          exact ⟨H, rfl, le_refl H, h2 ▸ hne⟩
        · rw [if_neg h2] at hok
          injection hok with hok
          have hn' : n' = ⟨v, p, some (hints ∩ H)⟩ := (congrArg Prod.fst hok).symm
          rw [hn']
          exact ⟨hints ∩ H, rfl, Finset.inter_subset_right, hne⟩
      · rw [if_neg h1] at hok
        right
        set w := (hints ∩ H).min' hne with hw
        have hwmem : w ∈ H := Finset.inter_subset_right (Finset.min'_mem _ hne)
        have hwrange := hrange hwmem
        simp only [Finset.mem_Icc] at hwrange
        rw [set_value_ok _ w hwrange.1 hwrange.2] at hok
        replace hok : (Except.ok ((⟨w, p, none⟩ : Node), true) : Except Err (Node × Bool)) =
          .ok (n', chg) := hok
        injection hok with hok
        have hn' : n' = ⟨w, p, none⟩ := (congrArg Prod.fst hok).symm
        rw [hn']
        refine ⟨?_, rfl⟩
        simp [Node.is_complete]
        omega
  · intro hcard
    have h0 : ¬ hints ∩ H = ∅ := by
      intro hempty
      rw [hempty] at hcard
      simp at hcard
    have hne : (hints ∩ H).Nonempty := Finset.nonempty_iff_ne_empty.mpr h0
    unfold Node.update
    dsimp only
    rw [dif_neg h0, if_neg (by omega)]
    set w := (hints ∩ H).min' hne with hw
    have hwmem : w ∈ H := Finset.inter_subset_right (Finset.min'_mem _ hne)
    have hwrange := hrange hwmem
    simp only [Finset.mem_Icc] at hwrange
    rw [set_value_ok _ w hwrange.1 hwrange.2]
    refine ⟨⟨w, p, none⟩, rfl, ?_, rfl⟩
    simp [Node.is_complete]
    omega

/-- Witness for `c2_node_update_contract` at a concrete cell with
candidates `{1,2,3}` updated by `{1,2}`. -/
theorem c2_node_update_contract_witness :
    ((⟨0, false, some {1, 2, 3}⟩ : Node).hints = some {1, 2, 3}
      ∧ ({1, 2, 3} : Finset ℕ) ⊆ Finset.Icc 1 9)
    ∧ ((({1, 2} : Finset ℕ) ∩ {1, 2, 3} = ∅ →
        Node.update ⟨0, false, some {1, 2, 3}⟩ {1, 2} = .error .logicErr)
    ∧ (∀ n' chg, Node.update ⟨0, false, some {1, 2, 3}⟩ {1, 2} = .ok (n', chg) →
        (∃ H', n'.hints = some H' ∧ H' ⊆ {1, 2, 3} ∧ H'.Nonempty) ∨
          (n'.is_complete = true ∧ n'.hints = none))
    ∧ ((({1, 2} : Finset ℕ) ∩ {1, 2, 3}).card = 1 →
        ∃ n', Node.update ⟨0, false, some {1, 2, 3}⟩ {1, 2} = .ok (n', true) ∧
          n'.is_complete = true ∧ n'.hints = none)) :=
  ⟨⟨rfl, by decide⟩,
    c2_node_update_contract ⟨0, false, some {1, 2, 3}⟩ {1, 2, 3} {1, 2} rfl (by decide)⟩

/-- A board whose first cell is unresolved with candidates `{1,2}`. -/
def c3_board : Sudoku := [[⟨0, false, some {1, 2}⟩]]

/-- C3 counterexample: `Sudoku.snap` does *not* copy candidate sets —
the snapshot of a cell holding candidates `{1,2}` has no candidate set
at all, refuting "a board with ... the same candidate sets as the
original". -/
theorem c3_snap_drops_hints :
    (Sudoku.snap c3_board).map (fun b' => (b'.get_node 0 0).hints) = .ok none
    ∧ (c3_board.get_node 0 0).hints = some {1, 2} := by
  constructor
  · decide
  · rfl

/-- C3 amended: `Sudoku.snap` returns an independent board with the same
cell values; every snapshot cell starts with *no* candidate set (they
are re-seeded by the nested solver's baseline refresh), and in this
functional embedding the snapshot shares no state with the original. -/
theorem c3_snap_values_only (s : Sudoku)
    (hval : ∀ i j, (s.get_node i j).value ≤ 9) :
    ∃ b', s.snap = .ok b' ∧ ∀ i j,
      (b'.get_node i j).value = (s.get_node i j).value ∧
      (b'.get_node i j).hints = none := by
  have hval' : ∀ r ∈ s, ∀ nd ∈ r, nd.value ≤ 9 := by
    intro r hr nd hnd
    obtain ⟨i, hi, hri⟩ := List.getElem_of_mem hr
    obtain ⟨j, hj, hnj⟩ := List.getElem_of_mem hnd
    have h1 : List.getD s i [] = r := by
      rw [List.getD_eq_getElem?_getD, List.getElem?_eq_getElem hi, Option.getD_some, hri]
    have h2 : List.getD r j default = nd := by
      rw [List.getD_eq_getElem?_getD, List.getElem?_eq_getElem hj, Option.getD_some, hnj]
    have h3 := hval i j
    simp only [Sudoku.get_node] at h3
    rw [h1, h2] at h3
    exact h3
  have hmap : s.mapM (fun row => row.mapM (fun n => Node.make n.value)) =
      .ok (s.map (fun row => row.map (fun n => ⟨n.value, decide (0 < n.value), none⟩))) := by
    apply mapM_ok
    intro r hr
    apply mapM_ok
    intro nd hnd
    unfold Node.make Node.check_value
    rw [if_neg (by have := hval' r hr nd hnd; omega)]
    rfl
  refine ⟨s.map (fun row => row.map (fun n => ⟨n.value, decide (0 < n.value), none⟩)),
    ?_, ?_⟩
  · unfold Sudoku.snap
    rw [hmap]
    exact sudoku_make_ok _
  · intro i j
    have hrow := getD_map_row
      (List.map (fun n => (⟨n.value, decide (0 < n.value), none⟩ : Node))) s i rfl
    have hnode := getD_map_node
      (fun n => (⟨n.value, decide (0 < n.value), none⟩ : Node)) (s.getD i []) j rfl
    constructor
    · show (Sudoku.get_node _ i j).value = _
      rw [Sudoku.get_node, hrow, hnode]
      rfl
    · show (Sudoku.get_node _ i j).hints = none
      rw [Sudoku.get_node, hrow, hnode]

/-- Witness for `c3_snap_values_only` at the concrete board `c3_board`. -/
theorem c3_snap_values_only_witness :
    (∀ i j, ((c3_board : Sudoku).get_node i j).value ≤ 9)
    ∧ (∃ b', (c3_board : Sudoku).snap = .ok b' ∧ ∀ i j,
        (b'.get_node i j).value = (c3_board.get_node i j).value ∧
        (b'.get_node i j).hints = none) := by
  have hval : ∀ i j, ((c3_board : Sudoku).get_node i j).value ≤ 9 := by
    intro i j
    rcases i with _ | i <;> rcases j with _ | j <;>
      simp [c3_board, Sudoku.get_node, List.getD,
        show (default : Node).value = 0 from rfl]
  exact ⟨hval, c3_snap_values_only c3_board hval⟩

theorem test_purge_single (s : Sudoku) (p : Pos) (hints h : Finset ℕ)
    (hc : (s.get_node p.1 p.2).is_complete = false)
    (hh : (s.get_node p.1 p.2).hints = some h) :
    test_purge s [p] hints = .ok (decide (h ∩ hints ≠ ∅)) := by
  unfold test_purge
  rw [if_neg (by simp [hc]), hh]
  dsimp only
  by_cases hint : h ∩ hints ≠ ∅
  · rw [if_pos hint]
    simp [hint]
  · rw [if_neg hint]
    unfold test_purge
    simp at hint
    simp [hint]

/-- C9: a pre-update veto: (1) when some hook's `pre_update` vetoes the
action, `update_node` returns `False` with the board untouched and no
exception; (2) a hook that vetoes every action makes any `purge_hints`
call leave the board unchanged and report no progress. -/
theorem c9_pre_update_veto (fuel : ℕ) (hooks : List Hook) (s : Sudoku) :
    (∀ p hints action, hooks.all (fun hk => hk.pre_update action) = false →
      update_node (fuel + 1) hooks s p hints action = .ok (s, false))
    ∧ (∀ ps hints, (∃ hk ∈ hooks, ∀ a, hk.pre_update a = false) →
        (∀ q ∈ ps, (s.get_node q.1 q.2).is_complete = false →
          (s.get_node q.1 q.2).hints.isSome) →
        ps.length < fuel → purge_hints fuel hooks s ps hints = .ok (s, false)) := by
  have part1 : ∀ fuel' p hints action,
      hooks.all (fun hk => hk.pre_update action) = false →
      update_node (fuel' + 1) hooks s p hints action = .ok (s, false) := by
    intro fuel' p hints action hveto
    unfold update_node
    rw [hveto]
    rfl
  refine ⟨part1 fuel, ?_⟩
  intro ps hints hhk hsome hfuel
  obtain ⟨hk, hmem, hall⟩ := hhk
  have hveto : ∀ a, hooks.all (fun hk' => hk'.pre_update a) = false := by
    intro a
    rw [List.all_eq_false]
    exact ⟨hk, hmem, by simp [hall a]⟩
  induction ps generalizing fuel with
  | nil =>
    rcases fuel with _ | fuel
    · omega
    · rfl
  | cons p ps ih =>
    rcases fuel with _ | fuel
    · omega
    have hfuel' : ps.length < fuel := by
      simp at hfuel
      omega
    have htail : ∀ q ∈ ps, (s.get_node q.1 q.2).is_complete = false →
        (s.get_node q.1 q.2).hints.isSome :=
      fun q hq => hsome q (List.mem_cons_of_mem p hq)
    unfold purge_hints
    by_cases hc : (s.get_node p.1 p.2).is_complete
    · rw [if_pos hc]
      exact ih fuel htail hfuel'
    · rw [if_neg hc]
      rcases hhints : (s.get_node p.1 p.2).hints with _ | h
      · exfalso
        have := hsome p (List.mem_cons_self p ps) (by simp [hc])
        rw [hhints] at this
        simp at this
      · rw [test_purge_single s p hints h (by simp [hc]) hhints]
        by_cases hint : h ∩ hints ≠ ∅
        · rw [show (decide (h ∩ hints ≠ ∅)) = true by simp [hint]]
          show (do
            let (s', st) ← update_node fuel hooks s p
              ((some h).getD ∅ \ hints)
              ⟨p, true, py_sorted hints⟩
            let (s'', st') ← purge_hints fuel hooks s' ps hints
            (Except.ok (s'', st || st') : Except Err (Sudoku × Bool))) = .ok (s, false)
          rcases fuel with _ | fuel
          · omega
          rw [part1 fuel p _ _ (hveto _)]
          show (do
            let (s'', st') ← purge_hints (fuel + 1) hooks s ps hints
            (Except.ok (s'', false || st') : Except Err (Sudoku × Bool))) = .ok (s, false)
          rw [ih (fuel + 1) htail hfuel']
          rfl
        · rw [show (decide (h ∩ hints ≠ ∅)) = false by
            simp only [ne_eq, decide_not]
            simp at hint
            simp [hint]]
          show purge_hints fuel hooks s ps hints = .ok (s, false)
          exact ih fuel htail hfuel'

/-- Witness for `c9_pre_update_veto`: a single always-vetoing hook, a
one-cell board holding candidates. -/
theorem c9_pre_update_veto_witness :
    (([⟨fun _ => false, fun _ => true⟩] : List Hook).all
        (fun hk => hk.pre_update ⟨(0, 0), true, [1]⟩) = false
      ∧ update_node 3 [⟨fun _ => false, fun _ => true⟩] c3_board (0, 0) {1}
          ⟨(0, 0), true, [1]⟩ = .ok (c3_board, false))
    ∧ ((∃ hk ∈ ([⟨fun _ => false, fun _ => true⟩] : List Hook), ∀ a,
          hk.pre_update a = false)
      ∧ (∀ q ∈ [((0 : ℕ), (0 : ℕ))],
          (Sudoku.get_node c3_board q.1 q.2).is_complete = false →
          (Sudoku.get_node c3_board q.1 q.2).hints.isSome)
      ∧ purge_hints 2 [⟨fun _ => false, fun _ => true⟩] c3_board [(0, 0)] {1} =
          .ok (c3_board, false)) := by
  have hv : ([⟨fun _ => false, fun _ => true⟩] : List Hook).all
      (fun hk => hk.pre_update ⟨(0, 0), true, [1]⟩) = false := rfl
  refine ⟨⟨hv, (c9_pre_update_veto 2 [⟨fun _ => false, fun _ => true⟩] c3_board).1
    (0, 0) {1} ⟨(0, 0), true, [1]⟩ hv⟩, ?_, ?_, ?_⟩
  · exact ⟨⟨fun _ => false, fun _ => true⟩, by simp, fun _ => rfl⟩
  · intro q hq
    simp at hq
    subst hq
    intro _
    rfl
  · exact (c9_pre_update_veto 2 [⟨fun _ => false, fun _ => true⟩] c3_board).2
      [(0, 0)] {1} ⟨⟨fun _ => false, fun _ => true⟩, by simp, fun _ => rfl⟩
      (by intro q hq; simp at hq; subst hq; intro _; rfl) (by simp)


theorem cell_chars_ok_or_typeErr (n : Node) (hints : Bool) :
    cell_chars n hints = .error .typeErr ∨ ∃ cs, cell_chars n hints = .ok cs := by
  unfold cell_chars
  by_cases hc : n.is_complete
  · rw [if_pos hc]
    exact .inr ⟨_, rfl⟩
  · rw [if_neg hc]
    by_cases hh : hints
    · rw [if_pos hh]
      rcases n.hints with _ | h
      · exact .inl rfl
      · exact .inr ⟨_, rfl⟩
    · rw [if_neg hh]
      exact .inr ⟨_, rfl⟩

theorem mapM_cell_chars_bad (s : Sudoku) (hints : Bool) (l : List Pos)
    (hbad : ∃ p ∈ l, cell_chars (s.get_node p.1 p.2) hints = .error .typeErr) :
    l.mapM (fun p => cell_chars (s.get_node p.1 p.2) hints) = .error .typeErr := by
  induction l with
  | nil => simp at hbad
  | cons x xs ih =>
    rw [List.mapM_cons]
    rcases cell_chars_ok_or_typeErr (s.get_node x.1 x.2) hints with hx | ⟨cs, hx⟩
    · rw [hx]
      rfl
    · rw [hx]
      obtain ⟨p, hp, hperr⟩ := hbad
      rcases List.mem_cons.mp hp with rfl | hp'
      · rw [hperr] at hx
        exact absurd hx (by simp)
      · rw [ih ⟨p, hp', hperr⟩]
        rfl

theorem mem_allCells {i j : ℕ} (hi : i < 9) (hj : j < 9) : (i, j) ∈ allCells := by
  unfold allCells
  rw [List.mem_flatMap]
  exact ⟨i, List.mem_range.mpr hi, List.mem_map.mpr ⟨j, List.mem_range.mpr hj, rfl⟩⟩

/-- C10: `Sudoku.save` in candidate-preserving mode requires every
unresolved cell to carry an initialized candidate set: if some cell
within the 9x9 range is unresolved with no candidate set (as after
loading a digits-only encoding, before the baseline refresh), `save`
raises `TypeError` (it sorts the absent set) instead of returning an
encoding. -/
theorem c10_save_requires_hints (s : Sudoku) (i j : ℕ) (hi : i < 9) (hj : j < 9)
    (hinc : (s.get_node i j).is_complete = false)
    (hnone : (s.get_node i j).hints = none) :
    s.save true = .error .typeErr := by
  have hcell : cell_chars (s.get_node i j) true = .error .typeErr := by
    unfold cell_chars
    rw [if_neg (by simp [hinc]), if_pos rfl, hnone]
  unfold Sudoku.save
  rw [mapM_cell_chars_bad s true allCells ⟨(i, j), mem_allCells hi hj, hcell⟩]
  rfl

/-- Witness for `c10_save_requires_hints`: an all-blank board (as
produced by loading 81 zeros) fails candidate-preserving save. -/
theorem c10_save_requires_hints_witness :
    ((0 : ℕ) < 9 ∧ (0 : ℕ) < 9
      ∧ (Sudoku.get_node [] 0 0).is_complete = false
      ∧ (Sudoku.get_node [] 0 0).hints = none)
    ∧ Sudoku.save [] true = .error .typeErr :=
  ⟨⟨by decide, by decide, rfl, rfl⟩,
    c10_save_requires_hints [] 0 0 (by decide) (by decide) rfl rfl⟩

/-- A 6-link contiguous loop whose group `[(0,0)]` holds two links of
the same (False) polarity: hints 1 and 2, both weak-colored. -/
def c7_cycle : List ((List Pos × ℕ) × Bool) :=
  [(([(0, 0)], 1), false), (([(0, 1)], 1), true), (([(0, 1)], 2), false),
   (([(0, 2)], 2), true), (([(0, 0)], 2), false), (([(0, 2)], 1), true)]

/-- C7: when a contiguous loop has a constraint-group member with two
same-polarity links, `loop_process_contig` does not purge anything and
does not report progress: the source's same-color branch calls
`loop_purge_color(plan, cycle, color, reason, note)` — five arguments
for a method declared with four — so Python raises `TypeError` the
moment that branch is taken, before any elimination. -/
theorem c7_same_color_branch_crashes :
    loop_contig c7_cycle = true
    ∧ (chain_group_hints c7_cycle [(0, 0)] (some false)).length = 2
    ∧ (∀ fuel hooks (s : Sudoku),
        loop_process_contig fuel hooks s c7_cycle = .error .typeErr) := by
  refine ⟨by decide, by decide, ?_⟩
  intro fuel hooks s
  unfold loop_process_contig
  rw [show find_same_color c7_cycle = some ([(0, 0)], false) from by decide]

/-- The canonical 4-link contiguous loop `-A+B-C+D` at concrete links,
and its rotation by one position `+B-C+D-A`. -/
def c8_canonical : List ((ℕ × ℕ) × Bool) :=
  [((0, 1), false), ((1, 1), true), ((2, 1), false), ((3, 1), true)]

/-- C8 counterexample: the cyclic rotation by one position of the
canonical contiguous loop — `+B-C+D-A`, which begins with a
strong-polarity link — is *not* classified as a duplicate of the
original: `loop_contig` requires the weak polarity on even positions, so
`loop_duplicate` falls through every branch and returns `False`. -/
theorem c8_odd_rotation_not_duplicate :
    loop_contig c8_canonical = true
    ∧ c8_canonical.drop 1 ++ c8_canonical.take 1 =
        [((1, 1), true), ((2, 1), false), ((3, 1), true), ((0, 1), false)]
    ∧ loop_duplicate (c8_canonical.drop 1 ++ c8_canonical.take 1) c8_canonical =
        false := by
  refine ⟨by decide, by decide, by decide⟩

/-- C8 amended: for the canonical 4-link contiguous loop `-A+B-C+D`
(distinct links), the polarity-preserving cyclic rotations (by 0 and 2)
and the polarity-preserving rotations of the reverse-with-flipped-
polarity form — exactly the equivalent forms the search can generate,
all beginning with a weak link — are classified as duplicates; the
rotations by odd offsets (beginning with a strong link, never generated)
are not. -/
theorem c8_duplicate_classification {γ : Type} [DecidableEq γ] (a b c d : γ × ℕ)
    (hab : a ≠ b) (hac : a ≠ c) (had : a ≠ d) (hbc : b ≠ c) (hbd : b ≠ d)
    (hcd : c ≠ d) :
    (loop_duplicate [(a, false), (b, true), (c, false), (d, true)]
      [(a, false), (b, true), (c, false), (d, true)] = true)
    ∧ (loop_duplicate [(c, false), (d, true), (a, false), (b, true)]
      [(a, false), (b, true), (c, false), (d, true)] = true)
    ∧ (loop_duplicate [(d, false), (c, true), (b, false), (a, true)]
      [(a, false), (b, true), (c, false), (d, true)] = true)
    ∧ (loop_duplicate [(b, false), (a, true), (d, false), (c, true)]
      [(a, false), (b, true), (c, false), (d, true)] = true)
    ∧ (loop_duplicate [(b, true), (c, false), (d, true), (a, false)]
      [(a, false), (b, true), (c, false), (d, true)] = false)
    ∧ (loop_duplicate [(d, true), (a, false), (b, true), (c, false)]
      [(a, false), (b, true), (c, false), (d, true)] = false)
    ∧ (loop_duplicate [(c, true), (b, false), (a, true), (d, false)]
      [(a, false), (b, true), (c, false), (d, true)] = false)
    ∧ (loop_duplicate [(a, true), (d, false), (c, true), (b, false)]
      [(a, false), (b, true), (c, false), (d, true)] = false) := by
  refine ⟨?_, ?_, ?_, ?_, ?_, ?_, ?_, ?_⟩ <;>
  simp [loop_duplicate, loop_contig, chain_all_links, setList, sliceStep, everyN,
    everyNF, loop_duplicate_contig, loop_duplicate_oneway, chain_reverse_flip,
    chain_flip_link, loop_strong, loop_weak, midSection, chain_flip,
    List.indexOf, List.findIdx, List.findIdx.go, Bool.cond_eq_ite, beq_iff_eq,
    Prod.mk.injEq, hab, hac, had, hbc, hbd, hcd,
    hab.symm, hac.symm, had.symm, hbc.symm, hbd.symm, hcd.symm]

/-- Witness for `c8_duplicate_classification` at the concrete canonical
loop `c8_canonical`. -/
theorem c8_duplicate_classification_witness :
    (((0, 1) : ℕ × ℕ) ≠ (1, 1) ∧ ((0, 1) : ℕ × ℕ) ≠ (2, 1)
      ∧ ((0, 1) : ℕ × ℕ) ≠ (3, 1) ∧ ((1, 1) : ℕ × ℕ) ≠ (2, 1)
      ∧ ((1, 1) : ℕ × ℕ) ≠ (3, 1) ∧ ((2, 1) : ℕ × ℕ) ≠ (3, 1))
    ∧ (loop_duplicate [((2, 1), false), ((3, 1), true), ((0, 1), false), ((1, 1), true)]
        c8_canonical = true)
    ∧ (loop_duplicate [((1, 1), true), ((2, 1), false), ((3, 1), true), ((0, 1), false)]
        c8_canonical = false) := by
  have h := c8_duplicate_classification ((0, 1) : ℕ × ℕ) (1, 1) (2, 1) (3, 1)
    (by decide) (by decide) (by decide) (by decide) (by decide) (by decide)
  exact ⟨⟨by decide, by decide, by decide, by decide, by decide, by decide⟩,
    h.2.1, h.2.2.2.2.1⟩

/-- The SINGLETON strategy as scheduled: `one_shot` returns `True`
(`Singleton.one_shot`, strategy/singleton.py:32-33), and `run` refreshes
every cell; no hooks are configured. -/
def c6_singleton : SchedStrat :=
  ⟨"SINGLETON", true, fun fuel s => singleton_run fuel [] s⟩

/-- A board with two blank cells in row `A` and the digit 1 in every
other cell (the duplicate digits are irrelevant: validation is vacuous,
and the two blank cells keep candidates {2..9}, so the board cannot
complete). -/
def c6_board : Sudoku :=
  (⟨0, false, none⟩ :: ⟨0, false, none⟩ :: List.replicate 7 ⟨1, true, none⟩) ::
    List.replicate 8 (List.replicate 9 ⟨1, true, none⟩)

set_option maxRecDepth 100000

/-- C6: `Plan.attack` never consults `one_shot` — no caller of the flag
exists — so a complete run of the Scheduler on `c6_board` with only
SINGLETON enabled at level 0 executes SINGLETON twice (progress on the
first pass, a second execution with no progress on the second pass)
before reporting impasse, refuting "executed exactly once". -/
theorem c6_singleton_executes_twice :
    c6_singleton.os_flag = true
    ∧ (plan_attack 8 [(0, [c6_singleton])] c6_board).map
        (fun r => (r.2.1, r.2.2)) = .ok (false, ["SINGLETON", "SINGLETON"]) := by
  refine ⟨rfl, by decide⟩

/-- A board with two unresolved cells in row `A`, candidates `{1,2}`
each, all other cells resolved. -/
def c4_board : Sudoku :=
  (⟨0, false, some {1, 2}⟩ :: ⟨0, false, some {1, 2}⟩ ::
    List.replicate 7 ⟨1, true, none⟩) ::
    List.replicate 8 (List.replicate 9 ⟨1, true, none⟩)

/-- A nested-solver behaviour: a contradiction exactly when both blank
cells were hypothesized to 1, an impasse otherwise. -/
def c4_oracle : Sudoku → Except Err Bool := fun t =>
  if (t.get_node 0 0).value = 1 ∧ (t.get_node 0 1).value = 1 then .error .logicErr
  else .ok false

/-- C4 counterexample: at arity two, the nested trial of the hypothesis
pair ((0,0)↦1, (0,1)↦1) ends in a contradiction, yet the full
`TrialTwo.run` search returns the original board completely unchanged
(no candidate of either hypothesis is purged), because another
completion of each first hypothesis reaches an impasse. -/
theorem c4_contradiction_without_purge :
    try_hints c4_oracle c4_board [((0, 0), 1), ((0, 1), 1)] = .error .logicErr
    ∧ trial_two_run c4_oracle 5 [] c4_board = .ok (c4_board, false) := by
  constructor
  · decide
  · decide

theorem getD_set_ne {α : Type} (l : List α) (i j : ℕ) (x : α) (d : α) (h : i ≠ j) :
    (l.set i x).getD j d = l.getD j d := by
  induction l generalizing i j with
  | nil => simp
  | cons a tl ih =>
    cases i with
    | zero =>
      cases j with
      | zero => exact absurd rfl h
      | succ j => rfl
    | succ i =>
      cases j with
      | zero => rfl
      | succ j => simpa using ih i j (by omega)

theorem getD_set_self {α : Type} (l : List α) (i : ℕ) (x : α) (d : α) :
    (l.set i x).getD i d = if i < l.length then x else l.getD i d := by
  induction l generalizing i with
  | nil => simp
  | cons a tl ih =>
    cases i with
    | zero => simp
    | succ i =>
      simp only [List.set_cons_succ, List.getD_cons_succ, List.length_cons]
      rw [ih i]
      by_cases hi : i < tl.length
      · rw [if_pos hi, if_pos (by omega)]
      · rw [if_neg hi, if_neg (by omega)]

theorem get_node_put_ne (s : Sudoku) (p : Pos) (n : Node) (q : Pos) (hq : q ≠ p) :
    (s.put p n).get_node q.1 q.2 = s.get_node q.1 q.2 := by
  unfold Sudoku.put Sudoku.get_node
  by_cases h1 : p.1 = q.1
  · have h2 : p.2 ≠ q.2 := by
      intro h2
      exact hq (Prod.ext h1.symm h2.symm)
    rw [← h1, getD_set_self]
    by_cases hlen : p.1 < s.length
    · rw [if_pos hlen, getD_set_ne _ _ _ _ _ h2]
    · rw [if_neg hlen]
  · rw [getD_set_ne _ _ _ _ _ h1]

theorem get_node_put_self (s : Sudoku) (p : Pos) (n : Node)
    (h1 : p.1 < s.length) (h2 : p.2 < (s.getD p.1 []).length) :
    (s.put p n).get_node p.1 p.2 = n := by
  unfold Sudoku.put Sudoku.get_node
  rw [getD_set_self, if_pos h1, getD_set_self, if_pos h2]

theorem mem_py_sorted {h : Finset ℕ} {x : ℕ} : x ∈ py_sorted h ↔ x ∈ h := by
  have key : ∀ (m : Multiset ℕ),
      (x ∈ Quotient.liftOn m (fun l => l.insertionSort (· ≤ ·))
        (fun l1 l2 hp => List.eq_of_perm_of_sorted
          ((List.perm_insertionSort _ l1).trans
            (hp.trans (List.perm_insertionSort _ l2).symm))
          (List.sorted_insertionSort _ l1) (List.sorted_insertionSort _ l2))) ↔
      x ∈ m := by
    intro m
    induction m using Quotient.inductionOn with
    | h l => exact Iff.trans ((List.perm_insertionSort _ l).mem_iff) Multiset.mem_coe
  exact Iff.trans (key h.val) Finset.mem_def.symm

/-- `update_node` with no hooks on an update that stores hints without
completing the node: the cell is replaced, no cascade runs. -/
theorem update_node_no_hooks_incomplete (fuel : ℕ) (s : Sudoku) (p : Pos)
    (hints : Finset ℕ) (action : UpdAction) (n' : Node)
    (hupd : (s.get_node p.1 p.2).update hints = .ok (n', true))
    (hninc : n'.is_complete = false) :
    update_node (fuel + 1) [] s p hints action = .ok (s.put p n', true) := by
  unfold update_node
  show (do
    let (n'', _) ← (s.get_node p.1 p.2).update hints
    let s' := s.put p n''
    if n''.is_complete then do
      let s'' ← refresh_list fuel [] s' (find_related p)
      (Except.ok (s'', true) : Except Err (Sudoku × Bool))
    else .ok (s', true)) = Except.ok (s.put p n', true)
  rw [hupd]
  show (if n'.is_complete = true then do
      let s'' ← refresh_list fuel [] (s.put p n') (find_related p)
      (Except.ok (s'', true) : Except Err (Sudoku × Bool))
    else Except.ok (s.put p n', true)) = Except.ok (s.put p n', true)
  simp [hninc]

/-- `Node.update` applied to the current hints minus one element, when
at least two candidates remain: the shrunken set is stored. -/
theorem node_update_sdiff (n : Node) (H : Finset ℕ) (h : ℕ) (hH : n.hints = some H)
    (hmem : h ∈ H) (hcard : 2 ≤ (H \ {h}).card) :
    n.update (H \ {h}) = .ok (⟨n.value, n.preset, some (H \ {h})⟩, true) := by
  obtain ⟨v, pr, hn⟩ := n
  simp only [Node.hints] at hH
  subst hH
  unfold Node.update
  dsimp only
  have hsub : H \ {h} ∩ H = H \ {h} :=
    Finset.inter_eq_left.mpr (Finset.sdiff_subset)
  rw [dif_neg (by rw [hsub]; intro he; rw [he] at hcard; simp at hcard)]
  rw [if_pos (by rw [hsub]; omega)]
  unfold Node.set_hints
  dsimp only
  rw [if_neg (by
    intro he
    simp only [hsub] at he
    have hmm : h ∈ H \ {h} := by rw [he]; exact hmem
    simp at hmm)]
  simp only [hsub]

/-- The effect of purging one hint from an unresolved cell with at least
two other candidates, with no hooks: exactly that cell's candidate set
shrinks. -/
theorem purge_single_effect (fuel : ℕ) (s : Sudoku) (p : Pos) (h : ℕ) (H : Finset ℕ)
    (hc : (s.get_node p.1 p.2).is_complete = false)
    (hH : (s.get_node p.1 p.2).hints = some H)
    (hmem : h ∈ H) (hcard : 2 ≤ (H \ {h}).card) :
    purge_hints (fuel + 2) [] s [p] {h} =
      .ok (s.put p ⟨(s.get_node p.1 p.2).value, (s.get_node p.1 p.2).preset,
        some (H \ {h})⟩, true) := by
  have hinter : H ∩ {h} ≠ ∅ := by
    rw [Finset.inter_comm, Finset.singleton_inter_of_mem hmem]
    simp
  have hupd := node_update_sdiff (s.get_node p.1 p.2) H h hH hmem hcard
  have hninc : (⟨(s.get_node p.1 p.2).value, (s.get_node p.1 p.2).preset,
      some (H \ {h})⟩ : Node).is_complete = false := hc
  unfold purge_hints
  rw [if_neg (by simp [hc])]
  rw [test_purge_single s p {h} H (by simp [hc]) hH]
  rw [decide_eq_true hinter]
  show (do
    let (s', st) ← update_node (fuel + 1) [] s p
      ((s.get_node p.1 p.2).hints.getD ∅ \ {h}) ⟨p, true, py_sorted {h}⟩
    let (s'', st') ← purge_hints (fuel + 1) [] s' [] {h}
    (Except.ok (s'', st || st') : Except Err (Sudoku × Bool))) = _
  have harg : (s.get_node p.1 p.2).hints.getD ∅ \ {h} = H \ {h} := by
    rw [hH]
    rfl
  rw [harg, update_node_no_hooks_incomplete fuel s p _ _ _ hupd hninc]
  rfl

theorem get_node_put_cases (s : Sudoku) (p : Pos) (n : Node) :
    (s.put p n).get_node p.1 p.2 = n ∨
    (s.put p n).get_node p.1 p.2 = s.get_node p.1 p.2 := by
  unfold Sudoku.put Sudoku.get_node
  rw [getD_set_self]
  by_cases h1 : p.1 < s.length
  · rw [if_pos h1, getD_set_self]
    by_cases h2 : p.2 < (s.getD p.1 []).length
    · rw [if_pos h2]
      exact .inl rfl
    · rw [if_neg h2]
      exact .inr rfl
  · rw [if_neg h1]
    exact .inr rfl

theorem trial_two_inner2_all_contra (oracle : Sudoku → Except Err Bool)
    (s : Sudoku) (p : Pos) (h : ℕ) (p2 : Pos) (l2 : List ℕ)
    (hcon : ∀ h2 ∈ l2, try_hints oracle s [(p, h), (p2, h2)] = .error .logicErr) :
    ∀ inv, trial_two_inner2 oracle s p h p2 l2 inv = .ok (none, inv) := by
  induction l2 with
  | nil => intro inv; rfl
  | cons h2 rest ih =>
    intro inv
    unfold trial_two_inner2
    rw [hcon h2 (List.mem_cons_self h2 rest)]
    exact ih (fun x hx => hcon x (List.mem_cons_of_mem h2 hx)) inv

theorem trial_two_inner1_all_contra (oracle : Sudoku → Except Err Bool)
    (s : Sudoku) (p : Pos) (h : ℕ) (l1 : List Pos)
    (hhints : ∀ p2 ∈ l1, p2 ≠ p → ∃ H2, (s.get_node p2.1 p2.2).get_hints = some H2 ∧
      ∀ h2 ∈ H2, try_hints oracle s [(p, h), (p2, h2)] = .error .logicErr) :
    ∀ inv, trial_two_inner1 oracle s p h l1 inv = .ok (none, inv) := by
  induction l1 with
  | nil => intro inv; rfl
  | cons p2 ps ih =>
    intro inv
    unfold trial_two_inner1
    by_cases hp : p2 = p
    · rw [if_pos hp]
      exact ih (fun x hx hxp => hhints x (List.mem_cons_of_mem p2 hx) hxp) inv
    · rw [if_neg hp]
      obtain ⟨H2, hH2, hcon⟩ := hhints p2 (List.mem_cons_self p2 ps) hp
      rw [hH2]
      show (do
        let (res, invalid') ← trial_two_inner2 oracle s p h p2 (py_sorted H2) inv
        match res with
        | some t => (Except.ok (some t, invalid') : Except Err (Option Sudoku × Bool))
        | none => trial_two_inner1 oracle s p h ps invalid') = Except.ok (none, inv)
      rw [trial_two_inner2_all_contra oracle s p h p2 (py_sorted H2)
        (fun h2 hm => hcon h2 (mem_py_sorted.mp hm)) inv]
      exact ih (fun x hx hxp => hhints x (List.mem_cons_of_mem p2 hx) hxp) inv

theorem trial_three_inner3_all_contra (oracle : Sudoku → Except Err Bool)
    (s : Sudoku) (p : Pos) (h : ℕ) (p2 : Pos) (h2 : ℕ) (p3 : Pos) (l3 : List ℕ)
    (hcon : ∀ h3 ∈ l3,
      try_hints oracle s [(p, h), (p2, h2), (p3, h3)] = .error .logicErr) :
    ∀ inv, trial_three_inner3 oracle s p h p2 h2 p3 l3 inv = .ok (none, inv) := by
  induction l3 with
  | nil => intro inv; rfl
  | cons h3 rest ih =>
    intro inv
    unfold trial_three_inner3
    rw [hcon h3 (List.mem_cons_self h3 rest)]
    exact ih (fun x hx => hcon x (List.mem_cons_of_mem h3 hx)) inv

theorem trial_three_inner2b_all_contra (oracle : Sudoku → Except Err Bool)
    (s : Sudoku) (p : Pos) (h : ℕ) (p2 : Pos) (h2 : ℕ) (l3 : List Pos)
    (hhints : ∀ p3 ∈ l3, ¬(p3 = p ∨ p3 = p2) →
      ∃ H3, (s.get_node p3.1 p3.2).get_hints = some H3 ∧
      ∀ h3 ∈ H3, try_hints oracle s [(p, h), (p2, h2), (p3, h3)] = .error .logicErr) :
    ∀ inv, trial_three_inner2b oracle s p h p2 h2 l3 inv = .ok (none, inv) := by
  induction l3 with
  | nil => intro inv; rfl
  | cons p3 ps ih =>
    intro inv
    unfold trial_three_inner2b
    by_cases hp : p3 = p ∨ p3 = p2
    · rw [if_pos hp]
      exact ih (fun x hx hxp => hhints x (List.mem_cons_of_mem p3 hx) hxp) inv
    · rw [if_neg hp]
      obtain ⟨H3, hH3, hcon⟩ := hhints p3 (List.mem_cons_self p3 ps) hp
      rw [hH3]
      show (do
        let (res, invalid') ← trial_three_inner3 oracle s p h p2 h2 p3 (py_sorted H3) inv
        match res with
        | some t => (Except.ok (some t, invalid') : Except Err (Option Sudoku × Bool))
        | none => trial_three_inner2b oracle s p h p2 h2 ps invalid') = Except.ok (none, inv)
      rw [trial_three_inner3_all_contra oracle s p h p2 h2 p3 (py_sorted H3)
        (fun h3 hm => hcon h3 (mem_py_sorted.mp hm)) inv]
      exact ih (fun x hx hxp => hhints x (List.mem_cons_of_mem p3 hx) hxp) inv

theorem trial_three_inner2a_all_contra (oracle : Sudoku → Except Err Bool)
    (s : Sudoku) (p : Pos) (h : ℕ) (p2 : Pos) (l2 : List ℕ)
    (hhints : ∀ h2 ∈ l2, ∀ p3 ∈ s.incomplete, ¬(p3 = p ∨ p3 = p2) →
      ∃ H3, (s.get_node p3.1 p3.2).get_hints = some H3 ∧
      ∀ h3 ∈ H3, try_hints oracle s [(p, h), (p2, h2), (p3, h3)] = .error .logicErr) :
    ∀ inv, trial_three_inner2a oracle s p h p2 l2 inv = .ok (none, inv) := by
  induction l2 with
  | nil => intro inv; rfl
  | cons h2 rest ih =>
    intro inv
    unfold trial_three_inner2a
    rw [trial_three_inner2b_all_contra oracle s p h p2 h2 s.incomplete
      (hhints h2 (List.mem_cons_self h2 rest)) inv]
    exact ih (fun x hx => hhints x (List.mem_cons_of_mem h2 hx)) inv

theorem trial_three_inner1_all_contra (oracle : Sudoku → Except Err Bool)
    (s : Sudoku) (p : Pos) (h : ℕ) (l1 : List Pos)
    (hhints : ∀ p2 ∈ l1, p2 ≠ p →
      ∃ H2, (s.get_node p2.1 p2.2).get_hints = some H2 ∧
      ∀ h2 ∈ H2, ∀ p3 ∈ s.incomplete, ¬(p3 = p ∨ p3 = p2) →
      ∃ H3, (s.get_node p3.1 p3.2).get_hints = some H3 ∧
      ∀ h3 ∈ H3, try_hints oracle s [(p, h), (p2, h2), (p3, h3)] = .error .logicErr) :
    ∀ inv, trial_three_inner1 oracle s p h l1 inv = .ok (none, inv) := by
  induction l1 with
  | nil => intro inv; rfl
  | cons p2 ps ih =>
    intro inv
    unfold trial_three_inner1
    by_cases hp : p2 = p
    · rw [if_pos hp]
      exact ih (fun x hx hxp => hhints x (List.mem_cons_of_mem p2 hx) hxp) inv
    · rw [if_neg hp]
      obtain ⟨H2, hH2, hcon⟩ := hhints p2 (List.mem_cons_self p2 ps) hp
      rw [hH2]
      show (do
        let (res, invalid') ← trial_three_inner2a oracle s p h p2 (py_sorted H2) inv
        match res with
        | some t => (Except.ok (some t, invalid') : Except Err (Option Sudoku × Bool))
        | none => trial_three_inner1 oracle s p h ps invalid') = Except.ok (none, inv)
      rw [trial_three_inner2a_all_contra oracle s p h p2 (py_sorted H2)
        (fun h2 hm => hcon h2 (mem_py_sorted.mp hm)) inv]
      exact ih (fun x hx hxp => hhints x (List.mem_cons_of_mem p2 hx) hxp) inv

/-- C4 amended: the rollback discipline of a failed trial.
(1) At arity one, each nested contradiction immediately takes the purge
branch for the hypothesis's candidate.  (2,3) At arities two and three,
the first hypothesis's candidate is purged only after the search of the
remaining hypotheses, and exactly when every such completion ended in a
contradiction (the `invalid` flag survived).  (4) The purge removes
exactly that candidate from the original board and leaves every other
cell unchanged. -/
theorem c4_trial_purge_discipline :
    (∀ (oracle : Sudoku → Except Err Bool) fuel hooks s p h hs,
      try_hints oracle s [(p, h)] = .error .logicErr →
      trial_one_hint_loop oracle fuel hooks s p (h :: hs) =
        (do
          let (s', r) ← trial_purge fuel hooks s p h
          match r with
          | some b => (.ok (s', b) : Except Err (Sudoku × Bool))
          | none => trial_one_hint_loop oracle fuel hooks s' p hs))
    ∧ (∀ (oracle : Sudoku → Except Err Bool) fuel hooks s p h,
        (∀ p2 ∈ s.incomplete, p2 ≠ p →
          ∃ H2, (s.get_node p2.1 p2.2).get_hints = some H2 ∧
          ∀ h2 ∈ H2, try_hints oracle s [(p, h), (p2, h2)] = .error .logicErr) →
        trial_two_step oracle fuel hooks s p h = trial_purge fuel hooks s p h)
    ∧ (∀ (oracle : Sudoku → Except Err Bool) fuel hooks s p h,
        (∀ p2 ∈ s.incomplete, p2 ≠ p →
          ∃ H2, (s.get_node p2.1 p2.2).get_hints = some H2 ∧
          ∀ h2 ∈ H2, ∀ p3 ∈ s.incomplete, ¬(p3 = p ∨ p3 = p2) →
          ∃ H3, (s.get_node p3.1 p3.2).get_hints = some H3 ∧
          ∀ h3 ∈ H3,
            try_hints oracle s [(p, h), (p2, h2), (p3, h3)] = .error .logicErr) →
        trial_three_step oracle fuel hooks s p h = trial_purge fuel hooks s p h)
    ∧ (∀ fuel s p h H,
        (s.get_node p.1 p.2).is_complete = false →
        (s.get_node p.1 p.2).hints = some H →
        h ∈ H → 2 ≤ (H \ {h}).card →
        trial_purge (fuel + 2) [] s p h =
          .ok (s.put p ⟨(s.get_node p.1 p.2).value, (s.get_node p.1 p.2).preset,
            some (H \ {h})⟩, none)
        ∧ ∀ q, q ≠ p →
          (s.put p ⟨(s.get_node p.1 p.2).value, (s.get_node p.1 p.2).preset,
            some (H \ {h})⟩).get_node q.1 q.2 = s.get_node q.1 q.2) := by
  refine ⟨?_, ?_, ?_, ?_⟩
  · intro oracle fuel hooks s p h hs hcon
    conv_lhs => unfold trial_one_hint_loop
    rw [hcon]
  · intro oracle fuel hooks s p h hhints
    unfold trial_two_step
    rw [trial_two_inner1_all_contra oracle s p h s.incomplete hhints true]
    rfl
  · intro oracle fuel hooks s p h hhints
    unfold trial_three_step
    rw [trial_three_inner1_all_contra oracle s p h s.incomplete hhints true]
    rfl
  · intro fuel s p h H hc hH hmem hcard
    have hcomp : ((s.put p ⟨(s.get_node p.1 p.2).value, (s.get_node p.1 p.2).preset,
        some (H \ {h})⟩).get_node p.1 p.2).is_complete = false := by
      rcases get_node_put_cases s p ⟨(s.get_node p.1 p.2).value,
        (s.get_node p.1 p.2).preset, some (H \ {h})⟩ with hcase | hcase <;>
        rw [hcase] <;> exact hc
    constructor
    · unfold trial_purge
      rw [purge_single_effect fuel s p h H hc hH hmem hcard]
      show (if ((s.put p ⟨(s.get_node p.1 p.2).value, (s.get_node p.1 p.2).preset,
          some (H \ {h})⟩).get_node p.1 p.2).is_complete then
          (Except.ok (s.put p ⟨(s.get_node p.1 p.2).value,
            (s.get_node p.1 p.2).preset, some (H \ {h})⟩, some true) :
            Except Err (Sudoku × Option Bool))
        else .ok (s.put p ⟨(s.get_node p.1 p.2).value,
          (s.get_node p.1 p.2).preset, some (H \ {h})⟩, none)) = _
      simp [hcomp]
    · intro q hq
      exact get_node_put_ne s p _ q hq

/-- A nested-solver behaviour that contradicts every trial. -/
def c4_oracle_contra : Sudoku → Except Err Bool := fun _ => .error .logicErr

/-- A board with two unresolved cells holding candidates `{1,2,3}`. -/
def c4_board3 : Sudoku :=
  (⟨0, false, some {1, 2, 3}⟩ :: ⟨0, false, some {1, 2, 3}⟩ ::
    List.replicate 7 ⟨1, true, none⟩) ::
    List.replicate 8 (List.replicate 9 ⟨1, true, none⟩)

/-- Witness for `c4_trial_purge_discipline` at the all-contradicting
oracle on `c4_board3`, hypothesis cell (0,0), candidate 1. -/
theorem c4_trial_purge_discipline_witness :
    (try_hints c4_oracle_contra c4_board3 [((0, 0), 1)] = .error .logicErr)
    ∧ (trial_one_hint_loop c4_oracle_contra 2 [] c4_board3 (0, 0) [1, 2, 3] =
        (do
          let (s', r) ← trial_purge 2 [] c4_board3 (0, 0) 1
          match r with
          | some b => (.ok (s', b) : Except Err (Sudoku × Bool))
          | none => trial_one_hint_loop c4_oracle_contra 2 [] s' (0, 0) [2, 3]))
    ∧ (trial_two_step c4_oracle_contra 2 [] c4_board3 (0, 0) 1 =
        trial_purge 2 [] c4_board3 (0, 0) 1)
    ∧ (trial_three_step c4_oracle_contra 2 [] c4_board3 (0, 0) 1 =
        trial_purge 2 [] c4_board3 (0, 0) 1)
    ∧ (trial_purge 2 [] c4_board3 (0, 0) 1 =
        .ok (c4_board3.put (0, 0) ⟨(c4_board3.get_node 0 0).value,
          (c4_board3.get_node 0 0).preset, some ({1, 2, 3} \ {1})⟩, none))
    ∧ ((c4_board3.put (0, 0) ⟨(c4_board3.get_node 0 0).value,
          (c4_board3.get_node 0 0).preset, some ({1, 2, 3} \ {1})⟩).get_node 0 1 =
        c4_board3.get_node 0 1) := by
  have hincs : c4_board3.incomplete = [(0, 0), (0, 1)] := by decide
  have h1 := c4_trial_purge_discipline.1 c4_oracle_contra 2 [] c4_board3 (0, 0) 1
    [2, 3] (by decide)
  have h2 := c4_trial_purge_discipline.2.1 c4_oracle_contra 2 [] c4_board3 (0, 0) 1
    (by
      intro p2 hm hne
      rw [hincs] at hm
      simp at hm
      rcases hm with rfl | rfl
      · exact absurd rfl hne
      · exact ⟨{1, 2, 3}, by decide, by decide⟩)
  have h3 := c4_trial_purge_discipline.2.2.1 c4_oracle_contra 2 [] c4_board3 (0, 0) 1
    (by
      intro p2 hm hne
      rw [hincs] at hm
      simp at hm
      rcases hm with rfl | rfl
      · exact absurd rfl hne
      · refine ⟨{1, 2, 3}, by decide, ?_⟩
        intro h2 hm2 p3 hm3 hne3
        rw [hincs] at hm3
        simp at hm3
        rcases hm3 with rfl | rfl
        · exact absurd (Or.inl rfl) hne3
        · exact absurd (Or.inr rfl) hne3)
  have h4 := c4_trial_purge_discipline.2.2.2 0 c4_board3 (0, 0) 1 {1, 2, 3}
    (by decide) (by decide) (by decide) (by decide)
  exact ⟨by decide, h1, h2, h3, h4.1, h4.2 (0, 1) (by decide)⟩

theorem py_sorted_coe (h : Finset ℕ) : (↑(py_sorted h) : Multiset ℕ) = h.val := by
  have key : ∀ (m : Multiset ℕ),
      ((↑(Quotient.liftOn m (fun l => l.insertionSort (· ≤ ·))
        (fun l1 l2 hp => List.eq_of_perm_of_sorted
          ((List.perm_insertionSort _ l1).trans
            (hp.trans (List.perm_insertionSort _ l2).symm))
          (List.sorted_insertionSort _ l1) (List.sorted_insertionSort _ l2)) :
        List ℕ) : Multiset ℕ)) = m := by
    intro m
    induction m using Quotient.inductionOn with
    | h l => exact Quotient.sound (List.perm_insertionSort _ l)
  exact key h.val

theorem py_sorted_length (h : Finset ℕ) : (py_sorted h).length = h.card := by
  have hc := congrArg Multiset.card (py_sorted_coe h)
  simpa using hc

theorem py_sorted_toFinset (h : Finset ℕ) : (py_sorted h).toFinset = h := by
  ext x
  rw [List.mem_toFinset]
  exact mem_py_sorted

theorem digit_char_aux (d : ℕ) (h1 : 1 ≤ d) (h9 : d ≤ 9) :
    ∃ c, (toString d).toList = [c] ∧ isDigitCh c = true ∧ isHintDigit c = true ∧
      isSpaceCh c = false ∧ digitVal c = d := by
  interval_cases d
  · exact ⟨'1', rfl, rfl, rfl, rfl, rfl⟩
  · exact ⟨'2', rfl, rfl, rfl, rfl, rfl⟩
  · exact ⟨'3', rfl, rfl, rfl, rfl, rfl⟩
  · exact ⟨'4', rfl, rfl, rfl, rfl, rfl⟩
  · exact ⟨'5', rfl, rfl, rfl, rfl, rfl⟩
  · exact ⟨'6', rfl, rfl, rfl, rfl, rfl⟩
  · exact ⟨'7', rfl, rfl, rfl, rfl, rfl⟩
  · exact ⟨'8', rfl, rfl, rfl, rfl, rfl⟩
  · exact ⟨'9', rfl, rfl, rfl, rfl, rfl⟩

theorem matchOneRep_comma (d : ℕ) (h1 : 1 ≤ d) (h9 : d ≤ 9) (cs : List Char) :
    matchOneRep (',' :: ((toString d).toList ++ cs)) = some (d, cs) := by
  obtain ⟨c, hc, _, hh, hsp, hv⟩ := digit_char_aux d h1 h9
  rw [hc, List.singleton_append]
  unfold matchOneRep
  rw [List.dropWhile_cons]
  rw [if_neg (by decide)]
  dsimp only
  rw [if_pos rfl]
  rw [List.dropWhile_cons, if_neg (by simp [hsp])]
  dsimp only
  rw [if_pos hh, hv]

theorem matchReps_run (tl : List ℕ) : ∀ (acc : List ℕ) (n : ℕ) (rest : List Char),
    tl.length ≤ n → (∀ x ∈ tl, 1 ≤ x ∧ x ≤ 9) →
    matchReps acc n (comma_chars tl ++ ']' :: rest) = some (acc ++ tl, rest) := by
  induction tl with
  | nil =>
    intro acc n rest _ _
    simp only [comma_chars, List.flatMap_nil, List.nil_append, List.append_nil]
    have hclose : closeBracket acc (']' :: rest) = some (acc, rest) := by
      simp [closeBracket]
    cases n with
    | zero => exact hclose
    | succ n =>
      unfold matchReps
      have hrep : matchOneRep (']' :: rest) = none := by
        unfold matchOneRep
        rw [List.dropWhile_cons, if_neg (by decide)]
        dsimp only
        rw [if_neg (by decide)]
      rw [hrep]
      exact hclose
  | cons d tl ih =>
    intro acc n rest hn hall
    cases n with
    | zero => simp at hn
    | succ n =>
      have hd := hall d (List.mem_cons_self d tl)
      show matchReps acc (n + 1)
        ((',' :: ((toString d).toList ++ comma_chars tl)) ++ ']' :: rest) =
        some (acc ++ d :: tl, rest)
      unfold matchReps
      rw [show ((',' :: ((toString d).toList ++ comma_chars tl)) ++ ']' :: rest) =
        ',' :: ((toString d).toList ++ (comma_chars tl ++ ']' :: rest)) by simp]
      rw [matchOneRep_comma d hd.1 hd.2]
      dsimp only
      rw [ih (acc ++ [d]) n rest (by simp at hn; omega)
        (fun x hx => hall x (List.mem_cons_of_mem d hx))]
      simp

theorem matchBracket_hint (l : List ℕ) (h2 : 2 ≤ l.length) (h9 : l.length ≤ 9)
    (hall : ∀ x ∈ l, 1 ≤ x ∧ x ≤ 9) (rest : List Char) :
    matchBracket (digits_chars l ++ ']' :: rest) = some (l, rest) := by
  rcases l with _ | ⟨d0, l⟩
  · simp at h2
  rcases l with _ | ⟨d1, tl⟩
  · simp at h2
  have hd0 := hall d0 (by simp)
  have hd1 := hall d1 (by simp)
  obtain ⟨c0, hc0, hdg0, hh0, _, hv0⟩ := digit_char_aux d0 hd0.1 hd0.2
  show matchBracket (((toString d0).toList ++ comma_chars (d1 :: tl)) ++ ']' :: rest) =
    some (d0 :: d1 :: tl, rest)
  rw [hc0]
  show matchBracket (c0 :: (comma_chars (d1 :: tl) ++ ']' :: rest)) = _
  unfold matchBracket
  dsimp only
  rw [if_pos hh0]
  rw [show (comma_chars (d1 :: tl) ++ ']' :: rest) =
    ',' :: ((toString d1).toList ++ (comma_chars tl ++ ']' :: rest)) by
    simp [comma_chars]]
  rw [matchOneRep_comma d1 hd1.1 hd1.2]
  dsimp only
  rw [hv0]
  rw [matchReps_run tl [d0, d1] 7 rest (by simp at h9; omega)
    (fun x hx => hall x (by simp [hx]))]
  rfl

theorem tokenize_hint_item (l : List ℕ) (h2 : 2 ≤ l.length) (h9 : l.length ≤ 9)
    (hall : ∀ x ∈ l, 1 ≤ x ∧ x ≤ 9) (rest : List Char) :
    tokenize (hint_chars l ++ rest) = Item.hintList l :: tokenize rest := by
  show tokenize ('[' :: ((digits_chars l ++ [']']) ++ rest)) = _
  rw [show ((digits_chars l ++ [']']) ++ rest) = digits_chars l ++ ']' :: rest by simp]
  exact tokenize_cons_bracket (matchBracket_hint l h2 h9 hall rest)

/-- A cell whose stored data survives the textual encoding: a resolved
value lies in 1..9, and (in candidate-preserving mode) an unresolved
cell carries at least two candidates, all in 1..9. -/
def goodNode (withHints : Bool) (n : Node) : Prop :=
  (n.is_complete = true → 1 ≤ n.value ∧ n.value ≤ 9) ∧
  (withHints = true → n.is_complete = false →
    ∃ h, n.hints = some h ∧ 2 ≤ h.card ∧ h ⊆ Finset.Icc 1 9)

/-- The token that `re.findall` recovers from the text `save` wrote for
one cell. -/
def node_tok (withHints : Bool) (n : Node) : Item :=
  if n.is_complete then .digit n.value
  else if withHints then .hintList (py_sorted (n.hints.getD ∅))
  else .digit 0

theorem value_eq_zero_of_not_complete {n : Node} (h : n.is_complete = false) :
    n.value = 0 := by
  simpa [Node.is_complete] using h

theorem cell_roundtrip (mode : Bool) (n : Node) (hg : goodNode mode n) :
    ∃ cs, cell_chars n mode = .ok cs ∧
      ∀ rest, tokenize (cs ++ rest) = node_tok mode n :: tokenize rest := by
  by_cases hcomp : n.is_complete = true
  · obtain ⟨h1, h9⟩ := hg.1 hcomp
    obtain ⟨c, hc, hdg, _, _, hv⟩ := digit_char_aux n.value h1 h9
    refine ⟨(toString n.value).toList, by simp [cell_chars, hcomp], ?_⟩
    intro rest
    rw [hc, List.singleton_append, tokenize_cons_digit rest hdg, hv]
    simp [node_tok, hcomp]
  · rw [Bool.not_eq_true] at hcomp
    cases hmode : mode with
    | false =>
      refine ⟨['0'], by simp [cell_chars, hcomp], ?_⟩
      intro rest
      rw [List.singleton_append, tokenize_cons_digit rest (by decide)]
      simp [node_tok, hcomp, digitVal]
    | true =>
      obtain ⟨h, hh, hcard, hsub⟩ := hg.2 hmode hcomp
      refine ⟨hint_chars (py_sorted h), by simp [cell_chars, hcomp, hh], ?_⟩
      intro rest
      have hlen : (py_sorted h).length = h.card := py_sorted_length h
      have hle : h.card ≤ 9 := by
        have := Finset.card_le_card hsub
        simpa [Nat.card_Icc] using this
      rw [tokenize_hint_item (py_sorted h) (by omega) (by omega)
        (fun x hx => by
          have hmem : x ∈ h := mem_py_sorted.mp hx
          have := hsub hmem
          rw [Finset.mem_Icc] at this
          exact this) rest]
      simp [node_tok, hcomp, hh]

theorem cells_roundtrip (mode : Bool) (f : Pos → Node) (ps : List Pos)
    (hg : ∀ p ∈ ps, goodNode mode (f p)) :
    ∃ parts : List (List Char),
      ps.mapM (fun p => cell_chars (f p) mode) = .ok parts ∧
      tokenize parts.flatten = ps.map (fun p => node_tok mode (f p)) := by
  induction ps with
  | nil => exact ⟨[], rfl, rfl⟩
  | cons p ps ih =>
    obtain ⟨parts, hm, ht⟩ := ih (fun q hq => hg q (by simp [hq]))
    obtain ⟨cs, hcs, htok⟩ := cell_roundtrip mode (f p) (hg p (by simp))
    refine ⟨cs :: parts, ?_, ?_⟩
    · rw [List.mapM_cons, hcs, hm]
      rfl
    · rw [List.flatten_cons, htok parts.flatten, ht]
      simp

theorem getD_range_map {β : Type} (f : ℕ → β) (n i : ℕ) (d : β) (hi : i < n) :
    ((List.range n).map f).getD i d = f i := by
  have hlen : i < ((List.range n).map f).length := by simpa using hi
  rw [List.getD_eq_getElem _ _ hlen]
  simp

theorem getD_map_tok (g : Pos → Item) (l : List Pos) (k : ℕ) (hk : k < l.length) :
    (l.map g).getD k default = g (l.getD k (0, 0)) := by
  have hlen : k < (l.map g).length := by simpa using hk
  rw [List.getD_eq_getElem _ _ hlen, List.getElem_map]
  congr 1
  rw [List.getD_eq_getElem _ _ hk]

theorem allCells_length : allCells.length = 81 := by decide

theorem allCells_getD : ∀ i, i < 9 → ∀ j, j < 9 →
    allCells.getD (i * 9 + j) (0, 0) = (i, j) := by decide

theorem allCells_bounds : ∀ p ∈ allCells, p.1 < 9 ∧ p.2 < 9 := by decide

theorem load_of_tokenize {t : String} {items : List Item}
    (ht : tokenize t.toList = items) (hlen : items.length = 81) :
    Sudoku.load t = .ok ((List.range 9).map (fun i =>
      (List.range 9).map (fun j => item_node (items.getD (i * 9 + j) default)))) := by
  show (if (tokenize t.toList).length ≠ 81 then (.error .valueErr : Except Err Sudoku)
    else Sudoku.make ((List.range 9).map (fun i =>
      (List.range 9).map (fun j =>
        item_node ((tokenize t.toList).getD (i * 9 + j) default))))) = _
  rw [ht, if_neg (fun hc => hc hlen)]
  exact sudoku_make_ok _

theorem load_grid_get (items : List Item) (i j : ℕ) (hi : i < 9) (hj : j < 9) :
    Sudoku.get_node ((List.range 9).map (fun i =>
      (List.range 9).map (fun j => item_node (items.getD (i * 9 + j) default)))) i j =
    item_node (items.getD (i * 9 + j) default) := by
  unfold Sudoku.get_node
  rw [getD_range_map _ 9 i _ hi]
  rw [getD_range_map _ 9 j _ hj]

/-- A board whose only unresolved cell carries the singleton candidate
set `{5}`; `save` writes it as the text `[5]`, which the loader's
regular expression does not recognize as a bracketed list (the list
alternative demands at least two digits), so the scan recovers the bare
digit `5` and the loaded cell comes back resolved. -/
def c5_board : Sudoku :=
  ((⟨0, false, some {5}⟩ : Node) :: List.replicate 8 (⟨1, true, none⟩ : Node)) ::
    List.replicate 8 (List.replicate 9 (⟨1, true, none⟩ : Node))

/-- C5, counterexample: on `c5_board` the save succeeds (in
candidate-preserving mode), the load of the saved text succeeds, yet the
unresolved cell A1 with candidate set `{5}` comes back as a resolved
cell of value 5 with no candidate set — the loaded board is not
equivalent to the original. -/
theorem c5_singleton_hint_breaks_roundtrip :
    (c5_board.get_node 0 0).is_complete = false ∧
    (c5_board.get_node 0 0).hints = some {5} ∧
    ((c5_board.save true).bind Sudoku.load).map
      (fun b' => ((b'.get_node 0 0).is_complete, (b'.get_node 0 0).hints,
        (b'.get_node 0 0).value)) = .ok (true, none, 5) := by
  decide

/-- C5 (amended): the save/load round-trip is faithful on boards whose
cells survive the textual encoding — every resolved value lies in 1..9
and, in candidate-preserving mode, every unresolved cell carries at
least two candidates, all in 1..9.  Then `save` succeeds, `load` of the
saved text succeeds, every cell of the loaded board has the same
resolved value, and in candidate-preserving mode every unresolved cell
has the same candidate set.  (Without these conditions the round-trip
fails: see the singleton-candidate counterexample.) -/
theorem c5_round_trip (b : Sudoku) (mode : Bool)
    (hg : ∀ i, i < 9 → ∀ j, j < 9 → goodNode mode (b.get_node i j)) :
    ∃ text b', b.save mode = .ok text ∧ Sudoku.load text = .ok b' ∧
      ∀ i, i < 9 → ∀ j, j < 9 →
        (b'.get_node i j).value = (b.get_node i j).value ∧
        (mode = true → (b.get_node i j).is_complete = false →
          (b'.get_node i j).hints = (b.get_node i j).hints) := by
  have hall : ∀ p ∈ allCells, goodNode mode (b.get_node p.1 p.2) := fun p hp => by
    obtain ⟨h1, h2⟩ := allCells_bounds p hp
    exact hg p.1 h1 p.2 h2
  obtain ⟨parts, hm, ht⟩ :=
    cells_roundtrip mode (fun p => b.get_node p.1 p.2) allCells hall
  have hsave : b.save mode = .ok (String.mk parts.flatten) := by
    unfold Sudoku.save
    rw [hm]
    rfl
  have hlen : (allCells.map (fun p => node_tok mode (b.get_node p.1 p.2))).length = 81 := by
    rw [List.length_map, allCells_length]
  have ht' : tokenize (String.mk parts.flatten).toList =
      allCells.map (fun p => node_tok mode (b.get_node p.1 p.2)) := ht
  refine ⟨String.mk parts.flatten, _, hsave, load_of_tokenize ht' hlen, ?_⟩
  intro i hi j hj
  rw [load_grid_get _ i j hi hj]
  rw [getD_map_tok _ allCells (i * 9 + j) (by rw [allCells_length]; omega)]
  rw [allCells_getD i hi j hj]
  by_cases hcomp : (b.get_node i j).is_complete = true
  · refine ⟨by simp [node_tok, hcomp, item_node], fun _ hinc => ?_⟩
    rw [hcomp] at hinc
    exact Bool.noConfusion hinc
  · rw [Bool.not_eq_true] at hcomp
    cases hmode : mode with
    | false =>
      refine ⟨?_, fun he => Bool.noConfusion he⟩
      simp [node_tok, hcomp, item_node, value_eq_zero_of_not_complete hcomp]
    | true =>
      obtain ⟨h, hh, _, _⟩ := (hg i hi j hj).2 hmode hcomp
      refine ⟨?_, fun _ _ => ?_⟩
      · simp [node_tok, hcomp, item_node, value_eq_zero_of_not_complete hcomp]
      · simp [node_tok, hcomp, item_node, hh, py_sorted_toFinset]

/-- A board meeting the round-trip conditions: one unresolved cell with
two candidates in 1..9, all other cells resolved to a value in 1..9. -/
def c5w_board : Sudoku :=
  ((⟨0, false, some {4, 5}⟩ : Node) :: List.replicate 8 (⟨1, true, none⟩ : Node)) ::
    List.replicate 8 (List.replicate 9 (⟨1, true, none⟩ : Node))

theorem c5_round_trip_witness :
    ∃ text b', c5w_board.save true = .ok text ∧ Sudoku.load text = .ok b' ∧
      ∀ i, i < 9 → ∀ j, j < 9 →
        (b'.get_node i j).value = (c5w_board.get_node i j).value ∧
        (true = true → (c5w_board.get_node i j).is_complete = false →
          (b'.get_node i j).hints = (c5w_board.get_node i j).hints) :=
  c5_round_trip c5w_board true (by
    have h1 : goodNode true (⟨1, true, none⟩ : Node) :=
      ⟨fun _ => by decide, fun _ hinc => absurd hinc (by decide)⟩
    have h0 : goodNode true (⟨0, false, some {4, 5}⟩ : Node) :=
      ⟨fun hc => absurd hc (by decide), fun _ _ => ⟨{4, 5}, rfl, by decide, by decide⟩⟩
    intro i hi j hj
    interval_cases i <;> interval_cases j <;> first | exact h0 | exact h1)
